import Mathlib

/-!
# urlencode: the percent-encoding engine of `cmd/encoder.go`

A shallow embedding of `isHex`, `unHex`, `shouldEscape`, `unescape` and `escape`.

* A Go `string` is a `List Nat` of byte values; a byte is a natural number below 256
  (`Bytes s`).  Character constants are written as their byte values, with the character
  in a comment.
* `unescape` returns `(string, error)`; the embedding returns an `Outcome`, which also
  records the two ways a Go loop over indices can fail to return at all: an index out
  of range (`panic`) and, for the fuel-bounded loops of the model, running out of fuel.
-/

namespace Urlencode

/-! ## Data model -/

/-- Modelled from the spec: the enumeration `flagtype.Encoding` (package `pkg/flagtype` is
not among the sources).  The spec lists the seven modes
`PathSegment, Path, QueryComponent, Host, Zone, UserPassword, Fragment`; the constructor
names are the identifiers used by `encoder.go`. -/
inductive Encoding
  | EncodePathSegment
  | EncodePath
  | EncodeQueryComponent
  | EncodeHost
  | EncodeZone
  | EncodeUserPassword
  | EncodeFragment
  deriving DecidableEq

open Encoding

/-- The two error values `unescape` returns: `url.EscapeError(s)` and
`url.InvalidHostError(s)`, each carrying its string payload. -/
inductive Error
  | EscapeError (s : List Nat)
  | InvalidHostError (s : List Nat)
  deriving DecidableEq

/-- What a call can do: return a value with a nil error (`ok`), return the empty string
with an error (`err`), stop with a run-time panic (`panic`: index out of range, negative
`Grow` count), or exhaust the fuel of the model (`outOfFuel`). -/
inductive Outcome (α : Type)
  | ok (v : α)
  | err (e : Error)
  | panic
  | outOfFuel
  deriving DecidableEq

/-- A Go string is a sequence of bytes: every element is below 256. -/
def Bytes (s : List Nat) : Prop := ∀ b ∈ s, b < 256

instance (s : List Nat) : Decidable (Bytes s) := by
  unfold Bytes; infer_instance

/-- The Go slice expression `s[lo:hi]`. -/
def slice (s : List Nat) (lo hi : Nat) : List Nat := (s.take hi).drop lo

/-- The constant `upperHex = "0123456789ABCDEF"`. -/
def upperHex : List Nat := [48, 49, 50, 51, 52, 53, 54, 55, 56, 57, 65, 66, 67, 68, 69, 70]

/-- The method `(*color.Color).Fprint` of the external package `fatih/color`, with colour output
disabled (`color.NoColor`, the library's setting whenever the output is not a terminal):
the text is written to the builder undecorated. -/
def Fprint (sb : List Nat) (a : List Nat) : List Nat := sb ++ a

/-! ## `isHex`, `unHex`, `shouldEscape` -/

/-- The function `isHex`: `'0'..'9'`, `'a'..'f'`, `'A'..'F'`. -/
def isHex (c : Nat) : Bool :=
  if 48 ≤ c ∧ c ≤ 57 then true          -- '0' <= c && c <= '9'
  else if 97 ≤ c ∧ c ≤ 102 then true    -- 'a' <= c && c <= 'f'
  else if 65 ≤ c ∧ c ≤ 70 then true     -- 'A' <= c && c <= 'F'
  else false

/-- The function `unHex`.  Inside each guard the byte subtraction cannot wrap around. -/
def unHex (c : Nat) : Nat :=
  if 48 ≤ c ∧ c ≤ 57 then c - 48             -- c - '0'
  else if 97 ≤ c ∧ c ≤ 102 then c - 97 + 10  -- c - 'a' + 10
  else if 65 ≤ c ∧ c ≤ 70 then c - 65 + 10   -- c - 'A' + 10
  else 0

/-- The expression `unHex(a)<<4 | unHex(b)` on bytes (the shift is truncated to 8 bits). -/
def hexByte (a b : Nat) : Nat := ((unHex a <<< 4) % 256) ||| unHex b

/-- The end of `shouldEscape`, reached when no earlier `return` fired: the `Fragment`
carve-out for `! ( ) *`, then "everything else must be escaped". -/
def shouldEscapeRest (c : Nat) (mode : Encoding) : Bool :=
  if mode = EncodeFragment ∧ (c = 33 ∨ c = 40 ∨ c = 41 ∨ c = 42) then false  -- '!', '(', ')', '*'
  else true

/-- The function `shouldEscape`: the decision table, one `return` per branch. -/
def shouldEscape (c : Nat) (mode : Encoding) : Bool :=
  -- 'a' <= c && c <= 'z' || 'A' <= c && c <= 'Z' || '0' <= c && c <= '9'
  if (97 ≤ c ∧ c ≤ 122) ∨ (65 ≤ c ∧ c ≤ 90) ∨ (48 ≤ c ∧ c ≤ 57) then false
  -- Host, Zone:  '!', '$', '&', '\'', '(', ')', '*', '+', ',', ';', '=', ':', '[', ']', '<', '>', '"'
  else if (mode = EncodeHost ∨ mode = EncodeZone) ∧
      (c = 33 ∨ c = 36 ∨ c = 38 ∨ c = 39 ∨ c = 40 ∨ c = 41 ∨ c = 42 ∨ c = 43 ∨ c = 44 ∨
        c = 59 ∨ c = 61 ∨ c = 58 ∨ c = 91 ∨ c = 93 ∨ c = 60 ∨ c = 62 ∨ c = 34) then false
  -- '-', '_', '.', '~'
  else if c = 45 ∨ c = 95 ∨ c = 46 ∨ c = 126 then false
  -- '$', '&', '+', ',', '/', ':', ';', '=', '?', '@'
  else if c = 36 ∨ c = 38 ∨ c = 43 ∨ c = 44 ∨ c = 47 ∨ c = 58 ∨ c = 59 ∨ c = 61 ∨
      c = 63 ∨ c = 64 then
    match mode with
    | EncodePath => c == 63                                            -- '?'
    | EncodePathSegment => c == 47 || c == 59 || c == 44 || c == 63    -- '/', ';', ',', '?'
    | EncodeUserPassword => c == 64 || c == 47 || c == 63 || c == 58   -- '@', '/', '?', ':'
    | EncodeQueryComponent => true
    | EncodeFragment => false
    | _ => shouldEscapeRest c mode
  else shouldEscapeRest c mode

/-! ## `unescape` -/

/-- The first loop of `unescape` (`for i := 0; i < len(s); { ... }`), started at index `i`
with the counters `n` and `hasPlus`; it returns the final counters or the error.  The
reads `s[i+1]`, `s[i+2]` and the slices `s[i:i+3]` stand behind the test `i+2 >= len(s)`,
so they are in range. -/
def unescapeCheck (s : List Nat) (mode : Encoding) :
    Nat → Nat → Nat → Bool → Outcome (Nat × Bool)
  | 0, i, n, hasPlus => if i < s.length then .outOfFuel else .ok (n, hasPlus)
  | fuel + 1, i, n, hasPlus =>
    if i < s.length then
      if s.getD i 0 = 37 then                                   -- case '%'
        if i + 2 ≥ s.length ∨ !isHex (s.getD (i + 1) 0) ∨ !isHex (s.getD (i + 2) 0) then
          let s1 := s.drop i                                    -- s = s[i:]
          let s2 := if s1.length > 3 then s1.take 3 else s1     -- s = s[:3]
          .err (.EscapeError s2)
        else if mode = EncodeHost ∧ unHex (s.getD (i + 1) 0) < 8 ∧
            slice s i (i + 3) ≠ [37, 50, 53] then               -- "%25"
          .err (.EscapeError (slice s i (i + 3)))
        else if mode = EncodeZone ∧ slice s i (i + 3) ≠ [37, 50, 53] ∧
            hexByte (s.getD (i + 1) 0) (s.getD (i + 2) 0) ≠ 32 ∧
            shouldEscape (hexByte (s.getD (i + 1) 0) (s.getD (i + 2) 0)) EncodeHost then
          .err (.EscapeError (slice s i (i + 3)))
        else unescapeCheck s mode fuel (i + 3) (n + 1) hasPlus
      else if s.getD i 0 = 43 then                              -- case '+'
        unescapeCheck s mode fuel (i + 1) n (decide (mode = EncodeQueryComponent))
      else if (mode = EncodeHost ∨ mode = EncodeZone) ∧ s.getD i 0 < 128 ∧
          shouldEscape (s.getD i 0) mode then
        .err (.InvalidHostError (slice s i (i + 1)))
      else unescapeCheck s mode fuel (i + 1) n hasPlus
    else .ok (n, hasPlus)

/-- The second loop of `unescape` (`for i := 0; i < len(s); i++ { ... }`), started at
index `i` with builder contents `t`.  The reads `s[i+1]` and `s[i+2]` are unguarded in the
source: out of range they panic. -/
def unescapeBuild (s : List Nat) (mode : Encoding) : Nat → Nat → List Nat → Outcome (List Nat)
  | 0, i, t => if i < s.length then .outOfFuel else .ok t
  | fuel + 1, i, t =>
    if i < s.length then
      if s.getD i 0 = 37 then                                   -- case '%'
        match s[i + 1]?, s[i + 2]? with
        | some a, some b => unescapeBuild s mode fuel (i + 2 + 1) (Fprint t [hexByte a b])
        | _, _ => .panic
      else if s.getD i 0 = 43 then                              -- case '+'
        if mode = EncodeQueryComponent then unescapeBuild s mode fuel (i + 1) (Fprint t [32])
        else unescapeBuild s mode fuel (i + 1) (t ++ [43])
      else unescapeBuild s mode fuel (i + 1) (t ++ [s.getD i 0])
    else .ok t

/-- The function `unescape`.  Each loop advances `i` by at least one per iteration, so `len(s)`
iterations of fuel are given to each.  `t.Grow(len(s) - 2*n)` panics on a negative
count. -/
def unescape (s : List Nat) (mode : Encoding) : Outcome (List Nat) :=
  match unescapeCheck s mode s.length 0 0 false with
  | .err e => .err e
  | .panic => .panic
  | .outOfFuel => .outOfFuel
  | .ok (n, hasPlus) =>
    if n = 0 ∧ hasPlus = false then .ok s
    else if (s.length : Int) - 2 * (n : Int) < 0 then .panic
    else unescapeBuild s mode s.length 0 []

/-! ## `escape` -/

/-- The counting loop of `escape`: `(spaceCount, hexCount)`. -/
def escapeCount (s : List Nat) (mode : Encoding) : Nat × Nat :=
  s.foldl (fun acc c =>
    if shouldEscape c mode then
      if c = 32 ∧ mode = EncodeQueryComponent then (acc.1 + 1, acc.2)
      else (acc.1, acc.2 + 1)
    else acc) (0, 0)

/-- The building loop of `escape`, from builder contents `sb`. -/
def escapeBuild (s : List Nat) (mode : Encoding) (sb : List Nat) : List Nat :=
  s.foldl (fun sb c =>
    if c = 32 ∧ mode = EncodeQueryComponent then Fprint sb [43]           -- "+"
    else if shouldEscape c mode then
      Fprint sb [37, upperHex.getD (c >>> 4) 0, upperHex.getD (c &&& 15) 0]
    else sb ++ [c]) sb

/-- The function `escape`: the early return when nothing is counted, else the built string. -/
def escape (s : List Nat) (mode : Encoding) : List Nat :=
  if (escapeCount s mode).1 = 0 ∧ (escapeCount s mode).2 = 0 then s
  else escapeBuild s mode []

/-! ## Reference functions and list views used by the proofs -/

/-- The unread part of the input seen by the first loop of `unescape`: the same tests as
`unescapeCheck`, by recursion on the suffix `s[i:]`. -/
def checkFrom (mode : Encoding) : List Nat → Nat → Bool → Outcome (Nat × Bool)
  | [], n, hasPlus => .ok (n, hasPlus)
  | c :: rest, n, hasPlus =>
    if c = 37 then
      match rest with
      | a :: b :: rest2 =>
        if !isHex a ∨ !isHex b then .err (.EscapeError [37, a, b])
        else if mode = EncodeHost ∧ unHex a < 8 ∧ [37, a, b] ≠ [37, 50, 53] then
          .err (.EscapeError [37, a, b])
        else if mode = EncodeZone ∧ [37, a, b] ≠ [37, 50, 53] ∧ hexByte a b ≠ 32 ∧
            shouldEscape (hexByte a b) EncodeHost then
          .err (.EscapeError [37, a, b])
        else checkFrom mode rest2 (n + 1) hasPlus
      | _ => .err (.EscapeError (c :: rest))
    else if c = 43 then checkFrom mode rest n (decide (mode = EncodeQueryComponent))
    else if (mode = EncodeHost ∨ mode = EncodeZone) ∧ c < 128 ∧ shouldEscape c mode then
      .err (.InvalidHostError [c])
    else checkFrom mode rest n hasPlus

/-- The value of a hexadecimal digit, read case-insensitively: its position in
`0123456789abcdef` after lowering the case of a letter. -/
def hexValue (c : Nat) : Nat :=
  [48, 49, 50, 51, 52, 53, 54, 55, 56, 57, 97, 98, 99, 100, 101, 102].indexOf
    (if 65 ≤ c ∧ c ≤ 90 then c + 32 else c)

/-- The reference decoding of the specification: scan left to right, replace each `%XY`
by the byte `16 * hex X + hex Y`, replace `+` by a space in `QueryComponent` mode, copy
every other byte. -/
def refDecode (mode : Encoding) : List Nat → List Nat
  | [] => []
  | c :: a :: b :: rest =>
    if c = 37 then (16 * hexValue a + hexValue b) :: refDecode mode rest
    else if c = 43 ∧ mode = EncodeQueryComponent then 32 :: refDecode mode (a :: b :: rest)
    else c :: refDecode mode (a :: b :: rest)
  | c :: rest =>
    if c = 43 ∧ mode = EncodeQueryComponent then 32 :: refDecode mode rest
    else c :: refDecode mode rest

/-- The per-byte image of the encoding algorithm as the specification words it: a byte
that needs no escaping is kept, a space in `QueryComponent` mode becomes `+`, any other
byte becomes `%` followed by its two uppercase hexadecimal digits. -/
def byteImage (mode : Encoding) (b : Nat) : List Nat :=
  if shouldEscape b mode = false then [b]
  else if b = 32 ∧ mode = EncodeQueryComponent then [43]
  else [37, upperHex.getD (b >>> 4) 0, upperHex.getD (b &&& 15) 0]

/-- The reference encoding: the concatenation, in input order, of the per-byte images. -/
def refEncode (mode : Encoding) (s : List Nat) : List Nat := s.flatMap (byteImage mode)

/-- An uppercase hexadecimal digit: `0-9` or `A-F`. -/
def isUpperHexDigit (c : Nat) : Prop := (48 ≤ c ∧ c ≤ 57) ∨ (65 ≤ c ∧ c ≤ 70)

instance (c : Nat) : Decidable (isUpperHexDigit c) := by
  unfold isUpperHexDigit; infer_instance

/-- In the string `s`, position `i` is followed by two hexadecimal digits. -/
def hexPairAt (s : List Nat) (i : Nat) : Prop :=
  i + 2 < s.length ∧ isHex (s.getD (i + 1) 0) = true ∧ isHex (s.getD (i + 2) 0) = true

instance (s : List Nat) (i : Nat) : Decidable (hexPairAt s i) := by
  unfold hexPairAt; infer_instance

/-- Position `i` of `s` holds the first offending `%`: a `%` that is not followed by two
hexadecimal digits, every `%` before it being followed by two. -/
def firstBadPercent (s : List Nat) (i : Nat) : Prop :=
  i < s.length ∧ s.getD i 0 = 37 ∧ ¬ hexPairAt s i ∧
    ∀ j < i, s.getD j 0 = 37 → hexPairAt s j

instance (s : List Nat) (i : Nat) : Decidable (firstBadPercent s i) := by
  unfold firstBadPercent; infer_instance

/-- The malformed-escape characterisation of the validation scan, for one start state of
the counters: the scan passes exactly when every `%` is followed by two hexadecimal digits,
and it reports the first offending `%` with at most three bytes of payload. -/
def PlainSpec (mode : Encoding) (l : List Nat) (n : Nat) (f : Bool) : Prop :=
  ((∃ r, checkFrom mode l n f = .ok r) ↔
      ∀ i < l.length, l.getD i 0 = 37 → hexPairAt l i) ∧
    (∀ i, firstBadPercent l i →
      checkFrom mode l n f = .err (.EscapeError ((l.drop i).take 3)))

/-- Every `%` of `out` is immediately followed by two uppercase hexadecimal digits. -/
def PercentOK (out : List Nat) : Prop :=
  ∀ i < out.length, out.getD i 0 = 37 →
    i + 2 < out.length ∧ isUpperHexDigit (out.getD (i + 1) 0) ∧
      isUpperHexDigit (out.getD (i + 2) 0)


/-! ## Lemmas: the list view of the two loops of `unescape` -/

theorem scanInduction {motive : List Nat → Prop} (nil : motive [])
    (short : ∀ rest : List Nat, rest.length < 2 → motive (37 :: rest))
    (pct : ∀ (a b : Nat) (rest : List Nat), motive rest → motive (37 :: a :: b :: rest))
    (other : ∀ (c : Nat) (rest : List Nat), c ≠ 37 → motive rest → motive (c :: rest))
    (l : List Nat) : motive l := by
  have key : ∀ (k : Nat) (l : List Nat), l.length ≤ k → motive l := by
    intro k
    induction k with
    | zero =>
      intro l hl
      have : l = [] := List.length_eq_zero.mp (Nat.le_zero.mp hl)
      subst this
      exact nil
    | succ k ih =>
      intro l hl
      rcases l with _ | ⟨c, rest⟩
      · exact nil
      · simp only [List.length_cons] at hl
        by_cases hc : c = 37
        · subst hc
          rcases rest with _ | ⟨a, _ | ⟨b, rest2⟩⟩
          · exact short _ (by simp)
          · exact short _ (by simp)
          · simp only [List.length_cons] at hl
            exact pct a b rest2 (ih rest2 (by omega))
        · exact other c rest hc (ih rest (by omega))
  exact key l.length l (Nat.le_refl _)

theorem checkFrom_nil (mode : Encoding) (n : Nat) (hp : Bool) :
    checkFrom mode [] n hp = .ok (n, hp) := rfl

theorem checkFrom_short (mode : Encoding) (rest : List Nat) (h : rest.length < 2) (n : Nat)
    (hp : Bool) : checkFrom mode (37 :: rest) n hp = .err (.EscapeError (37 :: rest)) := by
  rcases rest with _ | ⟨a, _ | ⟨b, rest2⟩⟩
  · simp [checkFrom]
  · simp [checkFrom]
  · simp only [List.length_cons] at h; omega

theorem checkFrom_pct (mode : Encoding) (a b : Nat) (rest : List Nat) (n : Nat) (hp : Bool) :
    checkFrom mode (37 :: a :: b :: rest) n hp =
      if isHex a = false ∨ isHex b = false then .err (.EscapeError [37, a, b])
      else if mode = EncodeHost ∧ unHex a < 8 ∧ [37, a, b] ≠ [37, 50, 53] then
        .err (.EscapeError [37, a, b])
      else if mode = EncodeZone ∧ [37, a, b] ≠ [37, 50, 53] ∧ hexByte a b ≠ 32 ∧
          shouldEscape (hexByte a b) EncodeHost = true then
        .err (.EscapeError [37, a, b])
      else checkFrom mode rest (n + 1) hp := by
  rw [checkFrom]
  simp

theorem checkFrom_other (mode : Encoding) (c : Nat) (rest : List Nat) (hc : c ≠ 37) (n : Nat)
    (hp : Bool) :
    checkFrom mode (c :: rest) n hp =
      if c = 43 then checkFrom mode rest n (decide (mode = EncodeQueryComponent))
      else if (mode = EncodeHost ∨ mode = EncodeZone) ∧ c < 128 ∧ shouldEscape c mode = true then
        .err (.InvalidHostError [c])
      else checkFrom mode rest n hp := by
  conv_lhs => unfold checkFrom
  simp only [hc, if_false]

theorem refDecode_nil (mode : Encoding) : refDecode mode [] = [] := rfl

theorem refDecode_short (mode : Encoding) (rest : List Nat) (h : rest.length < 2) :
    refDecode mode (37 :: rest) = 37 :: refDecode mode rest := by
  rcases rest with _ | ⟨a, _ | ⟨b, rest2⟩⟩
  · simp [refDecode]
  · simp [refDecode]
  · simp only [List.length_cons] at h; omega

theorem refDecode_pct (mode : Encoding) (a b : Nat) (rest : List Nat) :
    refDecode mode (37 :: a :: b :: rest) =
      (16 * hexValue a + hexValue b) :: refDecode mode rest := by
  simp [refDecode]

theorem refDecode_other (mode : Encoding) (c : Nat) (rest : List Nat) (hc : c ≠ 37) :
    refDecode mode (c :: rest) =
      (if c = 43 ∧ mode = EncodeQueryComponent then 32 else c) :: refDecode mode rest := by
  rcases rest with _ | ⟨a, _ | ⟨b, rest2⟩⟩
  · simp only [refDecode]; split_ifs <;> rfl
  · simp only [refDecode]; split_ifs <;> rfl
  · simp only [refDecode, hc, if_false]; split_ifs <;> rfl

theorem isHex_lt (a : Nat) (h : isHex a = true) : a < 103 := by
  unfold isHex at h
  split_ifs at h <;> omega

theorem unHex_eq_hexValue (a : Nat) (h : isHex a = true) : unHex a = hexValue a := by
  have hlt := isHex_lt a h
  revert h
  revert a
  decide

theorem unHex_lt (a : Nat) : unHex a < 16 := by
  unfold unHex
  split_ifs <;> omega

theorem shift_or (x y : Nat) (hx : x < 16) (hy : y < 16) :
    ((x <<< 4) % 256) ||| y = 16 * x + y := by
  revert y
  revert x
  decide

theorem hexByte_eq (a b : Nat) : hexByte a b = 16 * unHex a + unHex b :=
  shift_or _ _ (unHex_lt a) (unHex_lt b)

theorem getD_add_drop (s : List Nat) (i k : Nat) :
    s.getD (i + k) 0 = (s.drop i).getD k 0 := by
  simp [List.getD_eq_getElem?_getD, List.getElem?_drop]

theorem slice_add (s : List Nat) (i k : Nat) : slice s i (i + k) = (s.drop i).take k := by
  simp [slice, List.drop_take]

theorem drop_add_drop (s : List Nat) (i k : Nat) : s.drop (i + k) = (s.drop i).drop k := by
  simp [List.drop_drop, Nat.add_comm]

theorem unescapeCheck_eq (s : List Nat) (mode : Encoding) :
    ∀ (fuel i n : Nat) (hasPlus : Bool), s.length - i ≤ fuel →
      unescapeCheck s mode fuel i n hasPlus = checkFrom mode (s.drop i) n hasPlus := by
  intro fuel
  induction fuel with
  | zero =>
    intro i n hp h
    have hi : s.length ≤ i := by omega
    simp [unescapeCheck, List.drop_eq_nil_of_le hi, checkFrom, Nat.not_lt.mpr hi]
  | succ fuel ih =>
    intro i n hp h
    have h0 := getD_add_drop s i 0
    have h1 := getD_add_drop s i 1
    have h2 := getD_add_drop s i 2
    have e1 := slice_add s i 1
    have e3 := slice_add s i 3
    have d1 := drop_add_drop s i 1
    have d3 := drop_add_drop s i 3
    have hlen : (s.drop i).length = s.length - i := List.length_drop i s
    have ih1 := ih (i + 1)
    have ih3 := ih (i + 3)
    rw [d1] at ih1
    rw [d3] at ih3
    unfold unescapeCheck
    simp only [Nat.add_zero] at h0
    rw [h0, h1, h2, e1, e3]
    generalize s.drop i = l at *
    rcases l with _ | ⟨c, _ | ⟨a, _ | ⟨b, rest⟩⟩⟩
    · simp at hlen
      have hi : ¬ i < s.length := by omega
      simp [hi, checkFrom]
    · simp at hlen
      have hi : i < s.length := by omega
      have hi2 : s.length ≤ i + 2 := by omega
      unfold checkFrom
      simp only [hi, if_true, List.getD_cons_zero]
      by_cases hc : c = 37
      · simp [hc, hi2]
      · simp only [hc, if_false]
        rw [ih1 n _ (by omega), ih1 n _ (by omega)]
        simp only [List.drop_succ_cons, List.drop_zero, List.take_succ_cons, List.take_zero]
    · simp at hlen
      have hi : i < s.length := by omega
      have hi2 : s.length ≤ i + 2 := by omega
      unfold checkFrom
      simp only [hi, if_true, List.getD_cons_zero]
      by_cases hc : c = 37
      · simp [hc, hi2]
      · simp only [hc, if_false]
        rw [ih1 n _ (by omega), ih1 n _ (by omega)]
        simp only [List.drop_succ_cons, List.drop_zero, List.take_succ_cons, List.take_zero]
    · simp at hlen
      have hi : i < s.length := by omega
      have hi2 : ¬ s.length ≤ i + 2 := by omega
      unfold checkFrom
      simp only [hi, if_true, List.getD_cons_zero]
      by_cases hc : c = 37
      · simp only [hc, if_true, ge_iff_le, hi2, false_or, List.getD_cons_succ,
          List.getD_cons_zero, List.take_succ_cons, List.take_zero]
        rw [ih3 (n + 1) hp (by omega)]
        cases rest <;> simp
      · simp only [hc, if_false]
        rw [ih1 n _ (by omega), ih1 n _ (by omega)]
        simp only [List.drop_succ_cons, List.drop_zero, List.take_succ_cons, List.take_zero]

theorem checkFrom_ok_inv (mode : Encoding) (l : List Nat) :
    ∀ (n0 : Nat) (hp0 : Bool) (n : Nat) (hp : Bool),
      checkFrom mode l n0 hp0 = .ok (n, hp) →
        n0 ≤ n ∧ (hp0 = true → mode = EncodeQueryComponent → hp = true) ∧
        (n = n0 → hp = false → refDecode mode l = l) ∧
        (refDecode mode l).length + 2 * (n - n0) = l.length ∧
        3 * (n - n0) ≤ l.length := by
  induction l using scanInduction with
  | nil =>
    intro n0 hp0 n hp h
    simp only [checkFrom_nil, Outcome.ok.injEq, Prod.mk.injEq] at h
    obtain ⟨rfl, rfl⟩ := h
    refine ⟨Nat.le_refl _, fun h _ => h, ?_, ?_, ?_⟩ <;> simp [refDecode_nil]
  | short rest hr =>
    intro n0 hp0 n hp h
    simp [checkFrom_short mode rest hr] at h
  | pct a b rest ih =>
    intro n0 hp0 n hp h
    rw [checkFrom_pct] at h
    split_ifs at h
    obtain ⟨h1, h2, _, h4, h5⟩ := ih _ _ _ _ h
    refine ⟨by omega, h2, by omega, ?_, ?_⟩
    · simp only [refDecode_pct, List.length_cons]; omega
    · simp only [List.length_cons]; omega
  | other c rest hc ih =>
    intro n0 hp0 n hp h
    rw [checkFrom_other mode c rest hc] at h
    split_ifs at h with h43 hbad
    · obtain ⟨h1, h2, h3, h4, h5⟩ := ih _ _ _ _ h
      subst h43
      have hq : n = n0 → hp = false → mode ≠ EncodeQueryComponent := by
        intro _ hf hm
        have := h2 (by simp [hm]) hm
        simp [this] at hf
      refine ⟨h1, fun _ hm => h2 (by simp [hm]) hm, ?_, ?_, ?_⟩
      · intro hn hf
        rw [refDecode_other mode 43 rest (by decide), h3 hn hf]
        simp [hq hn hf]
      · simp only [refDecode_other mode 43 rest (by decide), List.length_cons]; omega
      · simp only [List.length_cons]; omega
    · obtain ⟨h1, h2, h3, h4, h5⟩ := ih _ _ _ _ h
      refine ⟨h1, h2, ?_, ?_, ?_⟩
      · intro hn hf
        rw [refDecode_other mode c rest hc, h3 hn hf]
        simp [h43]
      · simp only [refDecode_other mode c rest hc, List.length_cons]; omega
      · simp only [List.length_cons]; omega

theorem checkFrom_total (mode : Encoding) (l : List Nat) :
    ∀ (n : Nat) (hp : Bool),
      (∃ r, checkFrom mode l n hp = .ok r) ∨ (∃ e, checkFrom mode l n hp = .err e) := by
  induction l using scanInduction with
  | nil => intro n hp; exact Or.inl ⟨_, rfl⟩
  | short rest hr => intro n hp; exact Or.inr ⟨_, checkFrom_short mode rest hr n hp⟩
  | pct a b rest ih =>
    intro n hp
    rw [checkFrom_pct]
    split_ifs
    · exact Or.inr ⟨_, rfl⟩
    · exact Or.inr ⟨_, rfl⟩
    · exact Or.inr ⟨_, rfl⟩
    · exact ih _ _
  | other c rest hc ih =>
    intro n hp
    rw [checkFrom_other mode c rest hc]
    split_ifs
    · exact ih _ _
    · exact Or.inr ⟨_, rfl⟩
    · exact ih _ _

theorem checkFrom_err_indep (mode : Encoding) (l : List Nat) :
    ∀ (n : Nat) (hp : Bool) (e : Error), checkFrom mode l n hp = .err e →
      ∀ (n' : Nat) (hp' : Bool), checkFrom mode l n' hp' = .err e := by
  induction l using scanInduction with
  | nil => intro n hp e h; simp [checkFrom_nil] at h
  | short rest hr =>
    intro n hp e h n' hp'
    rw [checkFrom_short mode rest hr] at h ⊢
    exact h
  | pct a b rest ih =>
    intro n hp e h n' hp'
    rw [checkFrom_pct] at h ⊢
    split_ifs at h ⊢
    · exact h
    · exact h
    · exact h
    · exact ih _ _ _ h _ _
  | other c rest hc ih =>
    intro n hp e h n' hp'
    rw [checkFrom_other mode c rest hc] at h ⊢
    split_ifs at h ⊢
    · exact ih _ _ _ h _ _
    · exact h
    · exact ih _ _ _ h _ _

theorem checkFrom_ok_indep (mode : Encoding) (l : List Nat) (n : Nat) (hp : Bool)
    (r : Nat × Bool) (h : checkFrom mode l n hp = .ok r) (n' : Nat) (hp' : Bool) :
    ∃ r', checkFrom mode l n' hp' = .ok r' := by
  rcases checkFrom_total mode l n' hp' with h' | ⟨e, h'⟩
  · exact h'
  · have := checkFrom_err_indep mode l n' hp' e h' n hp
    rw [h] at this
    cases this

theorem checkFrom_append (mode : Encoding) (p t : List Nat) :
    ∀ (n : Nat) (hp : Bool) (r : Nat × Bool), checkFrom mode p n hp = .ok r →
      checkFrom mode (p ++ t) n hp = checkFrom mode t r.1 r.2 := by
  induction p using scanInduction with
  | nil =>
    intro n hp r h
    simp only [checkFrom_nil, Outcome.ok.injEq] at h
    subst h
    rfl
  | short rest hr => intro n hp r h; simp [checkFrom_short mode rest hr] at h
  | pct a b rest ih =>
    intro n hp r h
    rw [checkFrom_pct] at h
    rw [List.cons_append, List.cons_append, List.cons_append, checkFrom_pct]
    split_ifs at h ⊢
    exact ih _ _ _ h
  | other c rest hc ih =>
    intro n hp r h
    rw [checkFrom_other mode c rest hc] at h
    rw [List.cons_append, checkFrom_other mode c _ hc]
    split_ifs at h ⊢
    · exact ih _ _ _ h
    · exact ih _ _ _ h

theorem refDecode_append (mode : Encoding) (p t : List Nat) :
    ∀ (n : Nat) (hp : Bool) (r : Nat × Bool), checkFrom mode p n hp = .ok r →
      refDecode mode (p ++ t) = refDecode mode p ++ refDecode mode t := by
  induction p using scanInduction with
  | nil => intro n hp r _; rfl
  | short rest hr => intro n hp r h; simp [checkFrom_short mode rest hr] at h
  | pct a b rest ih =>
    intro n hp r h
    rw [checkFrom_pct] at h
    split_ifs at h
    rw [List.cons_append, List.cons_append, List.cons_append, refDecode_pct, refDecode_pct,
      ih _ _ _ h, List.cons_append]
  | other c rest hc ih =>
    intro n hp r h
    rw [checkFrom_other mode c rest hc] at h
    rw [List.cons_append, refDecode_other mode c _ hc, refDecode_other mode c _ hc,
      List.cons_append]
    split_ifs at h
    · rw [ih _ _ _ h]
    · rw [ih _ _ _ h]

theorem getElem?_add_drop (s : List Nat) (i k : Nat) : s[i + k]? = (s.drop i)[k]? := by
  simp [List.getElem?_drop]

theorem unescapeBuild_eq (s : List Nat) (mode : Encoding) :
    ∀ (fuel i : Nat) (t : List Nat) (n : Nat) (hasPlus : Bool) (r : Nat × Bool),
      s.length - i ≤ fuel → checkFrom mode (s.drop i) n hasPlus = .ok r →
      unescapeBuild s mode fuel i t = .ok (t ++ refDecode mode (s.drop i)) := by
  intro fuel
  induction fuel with
  | zero =>
    intro i t n hp r h _
    have hi : s.length ≤ i := by omega
    simp [unescapeBuild, List.drop_eq_nil_of_le hi, refDecode_nil, Nat.not_lt.mpr hi]
  | succ fuel ih =>
    intro i t n hp r h hck
    have h0 := getD_add_drop s i 0
    have g1 := getElem?_add_drop s i 1
    have g2 := getElem?_add_drop s i 2
    have d1 := drop_add_drop s i 1
    have d3 := drop_add_drop s i 3
    have hlen : (s.drop i).length = s.length - i := List.length_drop i s
    have ih1 := ih (i + 1)
    have ih3 := ih (i + 3)
    rw [d1] at ih1
    rw [d3] at ih3
    unfold unescapeBuild
    simp only [Nat.add_zero] at h0
    rw [h0, g1, g2]
    generalize s.drop i = l at *
    clear h0 g1 g2 d1 d3
    induction l using scanInduction generalizing n hp with
    | nil =>
      simp at hlen
      have hi : ¬ i < s.length := by omega
      simp [hi, refDecode_nil]
    | short rest hr => simp [checkFrom_short mode rest hr] at hck
    | pct a b rest _ =>
      simp only [List.length_cons] at hlen
      have hi : i < s.length := by omega
      rw [checkFrom_pct] at hck
      split_ifs at hck with hh
      simp only [not_or, Bool.not_eq_false] at hh
      simp only [hi, if_true, List.getD_cons_zero, List.getElem?_cons_succ,
        List.getElem?_cons_zero, List.drop_succ_cons, List.drop_zero] at ih3 ⊢
      rw [ih3 _ _ _ _ (by omega) hck, refDecode_pct, hexByte_eq,
        unHex_eq_hexValue a hh.1, unHex_eq_hexValue b hh.2]
      simp [Fprint]
    | other c rest hc _ =>
      simp only [List.length_cons] at hlen
      have hi : i < s.length := by omega
      rw [checkFrom_other mode c rest hc] at hck
      simp only [List.drop_succ_cons, List.drop_zero] at ih1
      simp only [hi, if_true, List.getD_cons_zero, hc, if_false]
      rw [refDecode_other mode c rest hc]
      split_ifs at hck with h43 hbad
      · subst h43
        by_cases hm : mode = EncodeQueryComponent
        · simp only [if_true, hm, and_self]
          rw [← hm, ih1 _ _ _ _ (by omega) hck]
          simp [Fprint]
        · simp only [if_true, hm, if_false, and_false]
          rw [ih1 _ _ _ _ (by omega) hck]
          simp
      · simp only [h43, if_false, false_and]
        rw [ih1 _ _ _ _ (by omega) hck]
        simp

theorem unescape_err (s : List Nat) (mode : Encoding) (e : Error)
    (h : checkFrom mode s 0 false = .err e) : unescape s mode = .err e := by
  unfold unescape
  rw [unescapeCheck_eq s mode s.length 0 0 false (by omega), List.drop_zero, h]

theorem unescape_ok (s : List Nat) (mode : Encoding) (r : Nat × Bool)
    (h : checkFrom mode s 0 false = .ok r) : unescape s mode = .ok (refDecode mode s) := by
  unfold unescape
  rw [unescapeCheck_eq s mode s.length 0 0 false (by omega), List.drop_zero, h]
  obtain ⟨n, hp⟩ := r
  obtain ⟨_, _, h3, h4, h5⟩ := checkFrom_ok_inv mode s 0 false n hp h
  simp only
  split_ifs with hz hneg
  · rw [h3 hz.1 hz.2]
  · exfalso; omega
  · have := unescapeBuild_eq s mode s.length 0 [] 0 false (n, hp) (by omega)
      (by rw [List.drop_zero]; exact h)
    rw [this, List.drop_zero, List.nil_append]

theorem shouldEscape_space_query : shouldEscape 32 EncodeQueryComponent = true := by decide

theorem shouldEscape_pct (mode : Encoding) : shouldEscape 37 mode = true := by
  cases mode <;> decide

theorem refEncode_nil (mode : Encoding) : refEncode mode [] = [] := rfl

theorem refEncode_cons (mode : Encoding) (b : Nat) (s : List Nat) :
    refEncode mode (b :: s) = byteImage mode b ++ refEncode mode s := by
  simp [refEncode]

theorem escapeBuild_eq (mode : Encoding) (s : List Nat) :
    ∀ sb : List Nat, escapeBuild s mode sb = sb ++ refEncode mode s := by
  induction s with
  | nil => intro sb; simp [escapeBuild, refEncode_nil]
  | cons b s ih =>
    intro sb
    have hstep : escapeBuild (b :: s) mode sb = escapeBuild s mode (sb ++ byteImage mode b) := by
      simp only [escapeBuild, List.foldl_cons, byteImage, Fprint]
      by_cases h1 : b = 32 ∧ mode = EncodeQueryComponent
      · obtain ⟨rfl, rfl⟩ := h1
        simp [shouldEscape_space_query]
      · by_cases h2 : shouldEscape b mode = true
        · simp [h1, h2]
        · simp [h1, h2]
    rw [hstep, ih, refEncode_cons, List.append_assoc]

theorem escapeCount_foldl (mode : Encoding) (f : Nat × Nat → Nat → Nat × Nat)
    (hf : ∀ (acc : Nat × Nat) (c : Nat), f acc c =
      if shouldEscape c mode = true then
        if c = 32 ∧ mode = EncodeQueryComponent then (acc.1 + 1, acc.2)
        else (acc.1, acc.2 + 1)
      else acc) (s : List Nat) :
    ∀ acc : Nat × Nat,
      acc.1 ≤ (s.foldl f acc).1 ∧ acc.2 ≤ (s.foldl f acc).2 ∧
        (((s.foldl f acc).1 = acc.1 ∧ (s.foldl f acc).2 = acc.2) ↔
          ∀ b ∈ s, shouldEscape b mode = false) := by
  induction s with
  | nil => intro acc; simp
  | cons b s ih =>
    intro acc
    rw [List.foldl_cons]
    have hF : acc.1 ≤ (f acc b).1 ∧ acc.2 ≤ (f acc b).2 ∧
        (((f acc b).1 = acc.1 ∧ (f acc b).2 = acc.2) ↔ shouldEscape b mode = false) := by
      rw [hf]
      split_ifs with h1 h2
      · simp [h1]
      · simp [h1]
      · simp [h1]
    obtain ⟨a1, a2, a3⟩ := ih (f acc b)
    obtain ⟨b1, b2, b3⟩ := hF
    refine ⟨by omega, by omega, ?_⟩
    simp only [List.mem_cons, forall_eq_or_imp]
    constructor
    · intro hh
      have h1 : (f acc b).1 = acc.1 ∧ (f acc b).2 = acc.2 := by omega
      exact ⟨b3.mp h1, a3.mp (by omega)⟩
    · intro hh
      have h1 := b3.mpr hh.1
      have h2 := a3.mpr hh.2
      omega

theorem escapeCount_zero_iff (mode : Encoding) (s : List Nat) :
    ((escapeCount s mode).1 = 0 ∧ (escapeCount s mode).2 = 0) ↔
      ∀ b ∈ s, shouldEscape b mode = false :=
  (escapeCount_foldl mode _ (fun _ _ => rfl) s (0, 0)).2.2

theorem refEncode_of_clean (mode : Encoding) (s : List Nat)
    (h : ∀ b ∈ s, shouldEscape b mode = false) : refEncode mode s = s := by
  induction s with
  | nil => rfl
  | cons b s ih =>
    simp only [List.mem_cons, forall_eq_or_imp] at h
    rw [refEncode_cons, ih h.2]
    simp [byteImage, h.1]

theorem escape_eq_refEncode (mode : Encoding) (s : List Nat) :
    escape s mode = refEncode mode s := by
  unfold escape
  split_ifs with h
  · exact (refEncode_of_clean mode s ((escapeCount_zero_iff mode s).mp h)).symm
  · rw [escapeBuild_eq, List.nil_append]

theorem byteImage_length_pos (mode : Encoding) (b : Nat) : 1 ≤ (byteImage mode b).length := by
  unfold byteImage
  split_ifs <;> simp

theorem refEncode_length_ge (mode : Encoding) (s : List Nat) :
    s.length ≤ (refEncode mode s).length := by
  induction s with
  | nil => simp [refEncode_nil]
  | cons b s ih =>
    rw [refEncode_cons, List.length_append, List.length_cons]
    have := byteImage_length_pos mode b
    omega

theorem refEncode_eq_self_iff (mode : Encoding) (s : List Nat) :
    refEncode mode s = s ↔ ∀ b ∈ s, shouldEscape b mode = false := by
  constructor
  · induction s with
    | nil => intro _ b hb; cases hb
    | cons b s ih =>
      intro h
      rw [refEncode_cons] at h
      have hlen := refEncode_length_ge mode s
      unfold byteImage at h
      split_ifs at h with h1 h2
      · simp only [List.singleton_append, List.cons.injEq, true_and] at h
        simp only [List.mem_cons, forall_eq_or_imp]
        exact ⟨h1, ih h⟩
      · exfalso
        simp only [List.singleton_append, List.cons.injEq] at h
        omega
      · exfalso
        have := congrArg List.length h
        simp only [List.cons_append, List.length_cons, List.nil_append] at this
        omega
  · exact refEncode_of_clean mode s

set_option maxRecDepth 100000 in
theorem upperHex_facts : ∀ b < 256,
    isHex (upperHex.getD (b >>> 4) 0) = true ∧ isHex (upperHex.getD (b &&& 15) 0) = true ∧
    16 * unHex (upperHex.getD (b >>> 4) 0) + unHex (upperHex.getD (b &&& 15) 0) = b ∧
    isUpperHexDigit (upperHex.getD (b >>> 4) 0) ∧ isUpperHexDigit (upperHex.getD (b &&& 15) 0) ∧
    (unHex (upperHex.getD (b >>> 4) 0) < 8 ↔ b < 128) ∧
    ((upperHex.getD (b >>> 4) 0 = 50 ∧ upperHex.getD (b &&& 15) 0 = 53) ↔ b = 37) := by
  decide

theorem shouldEscape_host_zone (b : Nat) : shouldEscape b EncodeZone = shouldEscape b EncodeHost := by
  simp [shouldEscape, shouldEscapeRest]

theorem byteImage_roundtrip (mode : Encoding) (b : Nat) (hb : b < 256)
    (hok : shouldEscape b mode = true →
      (mode = EncodeHost → b = 37 ∨ 128 ≤ b) ∧ (mode = EncodeZone → b = 37 ∨ b = 32))
    (n : Nat) (hp : Bool) :
    (∃ r, checkFrom mode (byteImage mode b) n hp = .ok r) ∧
      refDecode mode (byteImage mode b) = [b] := by
  obtain ⟨f1, f2, f3, _, _, f6, f7⟩ := upperHex_facts b hb
  unfold byteImage
  split_ifs with h1 h2
  · have h37 : b ≠ 37 := by
      rintro rfl
      rw [shouldEscape_pct] at h1
      cases h1
    rw [checkFrom_other mode b [] h37, refDecode_other mode b [] h37]
    have hq : ¬ (b = 43 ∧ mode = EncodeQueryComponent) := by
      rintro ⟨rfl, rfl⟩
      revert h1
      decide
    simp only [h1, checkFrom_nil, refDecode_nil, hq, if_false]
    constructor
    · split_ifs
      · exact ⟨_, rfl⟩
      · simp_all
      · exact ⟨_, rfl⟩
    · trivial
  · obtain ⟨rfl, rfl⟩ := h2
    refine ⟨⟨_, rfl⟩, by decide⟩
  · have he : shouldEscape b mode = true := by simpa using h1
    obtain ⟨g1, g2⟩ := hok he
    rw [checkFrom_pct, refDecode_pct, hexByte_eq, ← unHex_eq_hexValue _ f1,
      ← unHex_eq_hexValue _ f2, f3, refDecode_nil, checkFrom_nil]
    refine ⟨?_, rfl⟩
    have c1 : ¬ (isHex (upperHex.getD (b >>> 4) 0) = false ∨
        isHex (upperHex.getD (b &&& 15) 0) = false) := by
      rintro (h | h)
      · rw [f1] at h; cases h
      · rw [f2] at h; cases h
    have c2 : ¬ (mode = EncodeHost ∧ unHex (upperHex.getD (b >>> 4) 0) < 8 ∧
        [37, upperHex.getD (b >>> 4) 0, upperHex.getD (b &&& 15) 0] ≠ [37, 50, 53]) := by
      rintro ⟨hm, hlt, hne⟩
      rcases g1 hm with h | h
      · exact hne (by rw [(f7.mpr h).1, (f7.mpr h).2])
      · have := f6.mp hlt
        omega
    have c3 : ¬ (mode = EncodeZone ∧
        [37, upperHex.getD (b >>> 4) 0, upperHex.getD (b &&& 15) 0] ≠ [37, 50, 53] ∧ b ≠ 32 ∧
        shouldEscape b EncodeHost = true) := by
      rintro ⟨hm, hne, h32, _⟩
      rcases g2 hm with h | h
      · exact hne (by rw [(f7.mpr h).1, (f7.mpr h).2])
      · exact h32 h
    rw [if_neg c1, if_neg c2, if_neg c3]
    exact ⟨_, rfl⟩

theorem refEncode_roundtrip (mode : Encoding) (s : List Nat) (hs : Bytes s)
    (hok : ∀ b ∈ s, shouldEscape b mode = true →
      (mode = EncodeHost → b = 37 ∨ 128 ≤ b) ∧ (mode = EncodeZone → b = 37 ∨ b = 32)) :
    ∀ (n : Nat) (hp : Bool),
      (∃ r, checkFrom mode (refEncode mode s) n hp = .ok r) ∧
        refDecode mode (refEncode mode s) = s := by
  induction s with
  | nil => intro n hp; exact ⟨⟨_, rfl⟩, rfl⟩
  | cons b s ih =>
    intro n hp
    have hb : b < 256 := hs b (List.mem_cons_self _ _)
    have hs' : Bytes s := fun x hx => hs x (List.mem_cons_of_mem _ hx)
    obtain ⟨⟨r, hr⟩, hd⟩ := byteImage_roundtrip mode b hb (hok b (List.mem_cons_self _ _)) n hp
    obtain ⟨⟨r', hr'⟩, hd'⟩ := ih hs' (fun x hx => hok x (List.mem_cons_of_mem _ hx)) r.1 r.2
    rw [refEncode_cons, checkFrom_append mode _ _ n hp r hr,
      refDecode_append mode _ _ n hp r hr, hd, hd']
    exact ⟨⟨r', hr'⟩, rfl⟩

theorem roundtrip_core (mode : Encoding) (s : List Nat) (hs : Bytes s)
    (hok : ∀ b ∈ s, shouldEscape b mode = true →
      (mode = EncodeHost → b = 37 ∨ 128 ≤ b) ∧ (mode = EncodeZone → b = 37 ∨ b = 32)) :
    unescape (escape s mode) mode = .ok s := by
  obtain ⟨⟨r, hr⟩, hd⟩ := refEncode_roundtrip mode s hs hok 0 false
  rw [escape_eq_refEncode, unescape_ok _ mode r hr, hd]

theorem unescape_cases (s : List Nat) (mode : Encoding) :
    (∃ r, checkFrom mode s 0 false = .ok r ∧ unescape s mode = .ok (refDecode mode s)) ∨
    (∃ e, checkFrom mode s 0 false = .err e ∧ unescape s mode = .err e) := by
  rcases checkFrom_total mode s 0 false with ⟨r, hr⟩ | ⟨e, he⟩
  · exact Or.inl ⟨r, hr, unescape_ok s mode r hr⟩
  · exact Or.inr ⟨e, he, unescape_err s mode e he⟩

theorem first_split (P : Nat → Prop) [DecidablePred P] (s : List Nat) (h : ∃ b ∈ s, P b) :
    ∃ (p : List Nat) (b : Nat) (t : List Nat),
      s = p ++ b :: t ∧ (∀ x ∈ p, ¬ P x) ∧ P b := by
  induction s with
  | nil => obtain ⟨b, hb, _⟩ := h; cases hb
  | cons a s ih =>
    by_cases ha : P a
    · exact ⟨[], a, s, rfl, fun x hx => absurd hx (List.not_mem_nil x), ha⟩
    · obtain ⟨b, hb, hP⟩ := h
      have hb' : b ∈ s := by
        rcases List.mem_cons.mp hb with rfl | h'
        · exact absurd hP ha
        · exact h'
      obtain ⟨p, c, t, hs, hp, hc⟩ := ih ⟨b, hb', hP⟩
      refine ⟨a :: p, c, t, by rw [hs]; rfl, ?_, hc⟩
      intro x hx
      rcases List.mem_cons.mp hx with rfl | h'
      · exact ha
      · exact hp x h'

theorem checkFrom_host_clean (mode : Encoding) (hm : mode = EncodeHost ∨ mode = EncodeZone)
    (p : List Nat) (h37 : 37 ∉ p)
    (hp : ∀ x ∈ p, ¬ (x < 128 ∧ shouldEscape x mode = true)) :
    ∀ (n : Nat) (f : Bool), (∃ r, checkFrom mode p n f = .ok r) ∧ refDecode mode p = p := by
  induction p with
  | nil => intro n f; exact ⟨⟨_, rfl⟩, rfl⟩
  | cons c p ih =>
    intro n f
    have hc : c ≠ 37 := fun h => h37 (h ▸ List.mem_cons_self _ _)
    have h37' : 37 ∉ p := fun h => h37 (List.mem_cons_of_mem _ h)
    have hp' : ∀ x ∈ p, ¬ (x < 128 ∧ shouldEscape x mode = true) :=
      fun x hx => hp x (List.mem_cons_of_mem _ hx)
    have hcc := hp c (List.mem_cons_self _ _)
    have hq : mode ≠ EncodeQueryComponent := by
      rcases hm with rfl | rfl <;> decide
    rw [checkFrom_other mode c p hc, refDecode_other mode c p hc, (ih h37' hp' n f).2]
    have hbad : ¬ ((mode = EncodeHost ∨ mode = EncodeZone) ∧ c < 128 ∧
        shouldEscape c mode = true) := fun h => hcc h.2
    have hq' : ¬ (c = 43 ∧ mode = EncodeQueryComponent) := fun h => hq h.2
    rw [if_neg hbad, if_neg hq']
    refine ⟨?_, rfl⟩
    split_ifs
    · exact (ih h37' hp' _ _).1
    · exact (ih h37' hp' _ _).1

theorem getD_shift (p l : List Nat) (i : Nat) :
    (p ++ l).getD (p.length + i) 0 = l.getD i 0 := by
  rw [List.getD_append_right _ _ _ _ (Nat.le_add_right _ _), Nat.add_sub_cancel_left]

theorem getD_left (p l : List Nat) (i : Nat) (h : i < p.length) :
    (p ++ l).getD i 0 = p.getD i 0 := List.getD_append _ _ _ _ h

theorem hexPairAt_shift (p l : List Nat) (i : Nat) :
    hexPairAt (p ++ l) (p.length + i) ↔ hexPairAt l i := by
  unfold hexPairAt
  rw [Nat.add_assoc, Nat.add_assoc, getD_shift, getD_shift, List.length_append]
  constructor
  · rintro ⟨h1, h2, h3⟩; exact ⟨by omega, h2, h3⟩
  · rintro ⟨h1, h2, h3⟩; exact ⟨by omega, h2, h3⟩

theorem isHex_ne_pct (a : Nat) (h : isHex a = true) : a ≠ 37 := by
  rintro rfl
  revert h
  decide

theorem plainSpec_step (mode : Encoding) (p rest : List Nat) (n : Nat) (f : Bool) (n' : Nat)
    (f' : Bool)
    (hgood : ∀ j < p.length, (p ++ rest).getD j 0 = 37 → hexPairAt (p ++ rest) j)
    (hstep : checkFrom mode (p ++ rest) n f = checkFrom mode rest n' f')
    (ih : PlainSpec mode rest n' f') : PlainSpec mode (p ++ rest) n f := by
  obtain ⟨ih1, ih2⟩ := ih
  constructor
  · rw [hstep, ih1]
    constructor
    · intro h i hi h37
      by_cases hip : i < p.length
      · exact hgood i hip h37
      · obtain ⟨k, rfl⟩ : ∃ k, i = p.length + k := ⟨i - p.length, by omega⟩
        rw [getD_shift] at h37
        rw [hexPairAt_shift]
        rw [List.length_append] at hi
        exact h k (by omega) h37
    · intro h k hk h37
      have := h (p.length + k) (by rw [List.length_append]; omega)
        (by rw [getD_shift]; exact h37)
      exact (hexPairAt_shift p rest k).mp this
  · intro i ⟨hi, h37, hbad, hbefore⟩
    by_cases hip : i < p.length
    · exact absurd (hgood i hip h37) hbad
    · obtain ⟨k, rfl⟩ : ∃ k, i = p.length + k := ⟨i - p.length, by omega⟩
      rw [hstep]
      have hfb : firstBadPercent rest k := by
        refine ⟨?_, ?_, ?_, ?_⟩
        · rw [List.length_append] at hi; omega
        · rw [getD_shift] at h37; exact h37
        · rw [hexPairAt_shift] at hbad; exact hbad
        · intro j hj hj37
          have := hbefore (p.length + j) (by omega) (by rw [getD_shift]; exact hj37)
          exact (hexPairAt_shift p rest j).mp this
      rw [ih2 k hfb]
      congr 3
      rw [← List.drop_drop, List.drop_left]

theorem checkFrom_plain (mode : Encoding) (hH : mode ≠ EncodeHost) (hZ : mode ≠ EncodeZone)
    (l : List Nat) : ∀ (n : Nat) (f : Bool), PlainSpec mode l n f := by
  induction l using scanInduction with
  | nil =>
    intro n f
    constructor
    · constructor
      · intro _ i hi; cases hi
      · intro _; exact ⟨_, rfl⟩
    · intro i ⟨hi, _⟩; cases hi
  | short rest hr =>
    intro n f
    have hno : ¬ hexPairAt (37 :: rest) 0 := by
      rintro ⟨h, _⟩
      simp only [List.length_cons] at h
      omega
    constructor
    · rw [checkFrom_short mode rest hr]
      constructor
      · rintro ⟨r, hr⟩; cases hr
      · intro h
        exact absurd (h 0 (by simp) rfl) hno
    · intro i ⟨hi, h37, hbad, hbefore⟩
      rw [checkFrom_short mode rest hr]
      rcases Nat.eq_zero_or_pos i with rfl | hpos
      · rw [List.drop_zero, List.take_of_length_le]
        simp only [List.length_cons]
        omega
      · exact absurd (hbefore 0 hpos rfl) hno
  | pct a b rest ih =>
    intro n f
    have h0 : hexPairAt (37 :: a :: b :: rest) 0 ↔ (isHex a = true ∧ isHex b = true) := by
      unfold hexPairAt
      simp
    by_cases hab : isHex a = true ∧ isHex b = true
    · have hgood : ∀ j < [37, a, b].length,
          ([37, a, b] ++ rest).getD j 0 = 37 → hexPairAt ([37, a, b] ++ rest) j := by
        intro j hj h37
        simp only [List.length_cons, List.length_nil] at hj
        have hj' : j = 0 ∨ j = 1 ∨ j = 2 := by omega
        rcases hj' with rfl | rfl | rfl
        · exact h0.mpr hab
        · exact absurd h37 (isHex_ne_pct a hab.1)
        · exact absurd h37 (isHex_ne_pct b hab.2)
      have hstep : checkFrom mode ([37, a, b] ++ rest) n f = checkFrom mode rest (n + 1) f := by
        show checkFrom mode (37 :: a :: b :: rest) n f = _
        rw [checkFrom_pct]
        have c1 : ¬ (isHex a = false ∨ isHex b = false) := by
          rintro (h | h)
          · rw [hab.1] at h; cases h
          · rw [hab.2] at h; cases h
        rw [if_neg c1, if_neg (fun h => hH h.1), if_neg (fun h => hZ h.1)]
      exact plainSpec_step mode [37, a, b] rest n f (n + 1) f hgood hstep (ih _ _)
    · have hno : ¬ hexPairAt (37 :: a :: b :: rest) 0 := fun h => hab (h0.mp h)
      have hck : checkFrom mode (37 :: a :: b :: rest) n f = .err (.EscapeError [37, a, b]) := by
        rw [checkFrom_pct]
        have c1 : isHex a = false ∨ isHex b = false := by
          cases ha : isHex a
          · exact Or.inl rfl
          · cases hb : isHex b
            · exact Or.inr rfl
            · exact absurd ⟨ha, hb⟩ hab
        rw [if_pos c1]
      constructor
      · rw [hck]
        constructor
        · rintro ⟨r, hr⟩; cases hr
        · intro h
          exact absurd (h 0 (by simp) rfl) hno
      · intro i ⟨hi, h37, hbad, hbefore⟩
        rw [hck]
        rcases Nat.eq_zero_or_pos i with rfl | hpos
        · rfl
        · exact absurd (hbefore 0 hpos rfl) hno
  | other c rest hc ih =>
    intro n f
    have hgood : ∀ j < [c].length, ([c] ++ rest).getD j 0 = 37 → hexPairAt ([c] ++ rest) j := by
      intro j hj h37
      simp only [List.length_cons, List.length_nil] at hj
      have hj' : j = 0 := by omega
      subst hj'
      exact absurd h37 hc
    have hbad : ¬ ((mode = EncodeHost ∨ mode = EncodeZone) ∧ c < 128 ∧
        shouldEscape c mode = true) := by
      rintro ⟨h | h, _⟩
      · exact hH h
      · exact hZ h
    by_cases h43 : c = 43
    · have hstep : checkFrom mode ([c] ++ rest) n f =
          checkFrom mode rest n (decide (mode = EncodeQueryComponent)) := by
        show checkFrom mode (c :: rest) n f = _
        rw [checkFrom_other mode c rest hc, if_pos h43]
      exact plainSpec_step mode [c] rest n f _ _ hgood hstep (ih _ _)
    · have hstep : checkFrom mode ([c] ++ rest) n f = checkFrom mode rest n f := by
        show checkFrom mode (c :: rest) n f = _
        rw [checkFrom_other mode c rest hc, if_neg h43, if_neg hbad]
      exact plainSpec_step mode [c] rest n f _ _ hgood hstep (ih _ _)

/-! ## Lemmas for the claims -/

theorem checkFrom_triple (mode : Encoding) (X Y : Nat) (hX : isHex X = true)
    (hY : isHex Y = true) :
    checkFrom mode [37, X, Y] 0 false =
      if mode = EncodeHost ∧ unHex X < 8 ∧ [37, X, Y] ≠ [37, 50, 53] then
        .err (.EscapeError [37, X, Y])
      else if mode = EncodeZone ∧ [37, X, Y] ≠ [37, 50, 53] ∧ hexByte X Y ≠ 32 ∧
          shouldEscape (hexByte X Y) EncodeHost = true then
        .err (.EscapeError [37, X, Y])
      else .ok (1, false) := by
  rw [checkFrom_pct, checkFrom_nil]
  have c1 : ¬ (isHex X = false ∨ isHex Y = false) := by
    rintro (h | h)
    · rw [hX] at h; cases h
    · rw [hY] at h; cases h
  rw [if_neg c1]

theorem refDecode_triple (mode : Encoding) (X Y : Nat) :
    refDecode mode [37, X, Y] = [16 * hexValue X + hexValue Y] := by
  rw [refDecode_pct, refDecode_nil]

theorem hexValue_lt (a : Nat) (h : isHex a = true) : hexValue a < 16 := by
  rw [← unHex_eq_hexValue a h]
  exact unHex_lt a

theorem shouldEscape_upperHexDigit (c : Nat) (mode : Encoding) (h : isUpperHexDigit c) :
    shouldEscape c mode = false := by
  unfold isUpperHexDigit at h
  have : (97 ≤ c ∧ c ≤ 122) ∨ (65 ≤ c ∧ c ≤ 90) ∨ (48 ≤ c ∧ c ≤ 57) := by omega
  unfold shouldEscape
  rw [if_pos this]

theorem upperHexDigit_ne_pct (c : Nat) (h : isUpperHexDigit c) : c ≠ 37 := by
  unfold isUpperHexDigit at h
  omega

theorem percentOK_append (p l : List Nat) (hp : PercentOK p) (hl : PercentOK l) :
    PercentOK (p ++ l) := by
  intro i hi h37
  rw [List.length_append] at hi ⊢
  by_cases hip : i < p.length
  · rw [getD_left p l i hip] at h37
    obtain ⟨h1, h2, h3⟩ := hp i hip h37
    rw [getD_left p l (i + 1) (by omega), getD_left p l (i + 2) (by omega)]
    exact ⟨by omega, h2, h3⟩
  · obtain ⟨k, rfl⟩ : ∃ k, i = p.length + k := ⟨i - p.length, by omega⟩
    rw [getD_shift] at h37
    obtain ⟨h1, h2, h3⟩ := hl k (by omega) h37
    rw [Nat.add_assoc, Nat.add_assoc, getD_shift, getD_shift]
    exact ⟨by omega, h2, h3⟩

theorem percentOK_byteImage (mode : Encoding) (b : Nat) (hb : b < 256) :
    PercentOK (byteImage mode b) := by
  obtain ⟨_, _, _, f4, f5, _, _⟩ := upperHex_facts b hb
  unfold byteImage
  split_ifs with h1 h2
  · intro i hi h37
    simp only [List.length_cons, List.length_nil] at hi
    have : i = 0 := by omega
    subst this
    have hb37 : b = 37 := h37
    rw [hb37, shouldEscape_pct] at h1
    cases h1
  · intro i hi h37
    simp only [List.length_cons, List.length_nil] at hi
    have : i = 0 := by omega
    subst this
    cases h37
  · intro i hi h37
    simp only [List.length_cons, List.length_nil] at hi
    have hj' : i = 0 ∨ i = 1 ∨ i = 2 := by omega
    rcases hj' with rfl | rfl | rfl
    · exact ⟨by simp, f4, f5⟩
    · exact absurd h37 (upperHexDigit_ne_pct _ f4)
    · exact absurd h37 (upperHexDigit_ne_pct _ f5)

theorem percentOK_refEncode (mode : Encoding) (s : List Nat) (hs : Bytes s) :
    PercentOK (refEncode mode s) := by
  induction s with
  | nil => intro i hi; cases hi
  | cons b s ih =>
    rw [refEncode_cons]
    exact percentOK_append _ _ (percentOK_byteImage mode b (hs b (List.mem_cons_self _ _)))
      (ih (fun x hx => hs x (List.mem_cons_of_mem _ hx)))

theorem mem_refEncode (mode : Encoding) (s : List Nat) (c : Nat) :
    c ∈ refEncode mode s ↔ ∃ b ∈ s, c ∈ byteImage mode b := by
  unfold refEncode
  exact List.mem_flatMap

/-! ## The claims -/

/-- C1 (as stated, refuted): the encoder's own output is rejected by the decoder in `Host`
mode for a space and in `Zone` mode for a slash. -/
theorem roundtrip_host_zone_counterexample :
    unescape (escape [32] EncodeHost) EncodeHost = .err (.EscapeError [37, 50, 48]) ∧
    unescape (escape [32] EncodeHost) EncodeHost ≠ .ok [32] ∧
    unescape (escape [47] EncodeZone) EncodeZone = .err (.EscapeError [37, 50, 70]) ∧
    unescape (escape [47] EncodeZone) EncodeZone ≠ .ok [47] := by
  decide

/-- C1 (amended): round trip.  For every mode and every byte string `s`,
`unescape (escape s m) m` succeeds and returns exactly `s`, provided that in `Host` mode every
byte of `s` that needs escaping is `%` or non-ASCII (`>= 0x80`), and in `Zone` mode every
byte of `s` that needs escaping is `%` or a space.  The five other modes carry no
condition. -/
theorem roundtrip_amended (mode : Encoding) (s : List Nat) (hs : Bytes s)
    (hhost : mode = EncodeHost →
      ∀ b ∈ s, shouldEscape b EncodeHost = true → b = 37 ∨ 128 ≤ b)
    (hzone : mode = EncodeZone →
      ∀ b ∈ s, shouldEscape b EncodeZone = true → b = 37 ∨ b = 32) :
    unescape (escape s mode) mode = .ok s := by
  apply roundtrip_core mode s hs
  intro b hb he
  constructor
  · intro hm
    subst hm
    exact hhost rfl b hb he
  · intro hm
    subst hm
    exact hzone rfl b hb he

theorem roundtrip_amended_witness :
    unescape (escape [97, 37, 200, 43] EncodeHost) EncodeHost = .ok [97, 37, 200, 43] :=
  roundtrip_amended EncodeHost [97, 37, 200, 43] (by decide) (by decide) (by decide)

/-- C2: malformed escape rejection.  In every mode other than `Host` and `Zone`, `unescape`
succeeds exactly when every `%` of the input is immediately followed by two hexadecimal
digits; at the first offending `%`, at index `i`, it returns the malformed-escape error whose
payload is the at most three bytes of the input from `i` on; and whenever it does not
succeed there is such a first offending `%`. -/
theorem malformed_escape (mode : Encoding) (s : List Nat) (hH : mode ≠ EncodeHost)
    (hZ : mode ≠ EncodeZone) :
    ((∃ t, unescape s mode = .ok t) ↔
      ∀ i < s.length, s.getD i 0 = 37 → hexPairAt s i) ∧
    (∀ i, firstBadPercent s i →
      unescape s mode = .err (.EscapeError ((s.drop i).take 3))) ∧
    ((¬ ∃ t, unescape s mode = .ok t) →
      ∃ i, firstBadPercent s i ∧
        unescape s mode = .err (.EscapeError ((s.drop i).take 3))) := by
  obtain ⟨h1, h2⟩ := checkFrom_plain mode hH hZ s 0 false
  have hiff : (∃ t, unescape s mode = .ok t) ↔
      ∀ i < s.length, s.getD i 0 = 37 → hexPairAt s i := by
    rw [← h1]
    constructor
    · rintro ⟨t, ht⟩
      rcases unescape_cases s mode with ⟨r, hr, _⟩ | ⟨e, _, he⟩
      · exact ⟨r, hr⟩
      · rw [he] at ht; cases ht
    · rintro ⟨r, hr⟩
      exact ⟨_, unescape_ok s mode r hr⟩
  have herr : ∀ i, firstBadPercent s i →
      unescape s mode = .err (.EscapeError ((s.drop i).take 3)) :=
    fun i hi => unescape_err s mode _ (h2 i hi)
  refine ⟨hiff, herr, ?_⟩
  intro hno
  rw [hiff] at hno
  have hex : ∃ i, i < s.length ∧ s.getD i 0 = 37 ∧ ¬ hexPairAt s i := by
    by_contra hcon
    apply hno
    intro i hi h37
    by_contra hbad
    exact hcon ⟨i, hi, h37, hbad⟩
  have hmin := Nat.find_spec hex
  refine ⟨Nat.find hex, ?_, ?_⟩
  · refine ⟨hmin.1, hmin.2.1, hmin.2.2, ?_⟩
    intro j hj hj37
    by_contra hbad
    exact Nat.find_min hex hj ⟨by omega, hj37, hbad⟩
  · apply herr
    refine ⟨hmin.1, hmin.2.1, hmin.2.2, ?_⟩
    intro j hj hj37
    by_contra hbad
    exact Nat.find_min hex hj ⟨by omega, hj37, hbad⟩

theorem malformed_escape_witness :
    unescape [97, 98, 99, 37] EncodePathSegment = .err (.EscapeError [37]) ∧
    unescape [97, 98, 99, 37, 50] EncodePathSegment = .err (.EscapeError [37, 50]) ∧
    unescape [97, 98, 99, 37, 50, 71] EncodePathSegment = .err (.EscapeError [37, 50, 71]) ∧
    unescape [37, 52, 49, 37, 50, 71, 97, 37] EncodePathSegment =
      .err (.EscapeError [37, 50, 71]) :=
  ⟨(malformed_escape EncodePathSegment [97, 98, 99, 37] (by decide) (by decide)).2.1 3
      (by decide),
    (malformed_escape EncodePathSegment [97, 98, 99, 37, 50] (by decide) (by decide)).2.1 3
      (by decide),
    (malformed_escape EncodePathSegment [97, 98, 99, 37, 50, 71] (by decide) (by decide)).2.1 3
      (by decide),
    (malformed_escape EncodePathSegment [37, 52, 49, 37, 50, 71, 97, 37] (by decide)
      (by decide)).2.1 3 (by decide)⟩

/-- C3 (as stated, refuted): `%41` decodes to `0x41`, which is not below `0x08`, yet `Host`
mode rejects it. -/
theorem host_low_byte_counterexample :
    isHex 52 = true ∧ isHex 49 = true ∧ ¬ (16 * hexValue 52 + hexValue 49 < 8) ∧
    unescape [37, 52, 49] EncodeHost = .err (.EscapeError [37, 52, 49]) := by
  decide

/-- C3 (amended): in `Host` mode an escape `%XY` is rejected exactly when the decoded byte is
below `0x80` and the sequence is not `%25`. -/
theorem host_escape_restriction (X Y : Nat) (hX : isHex X = true) (hY : isHex Y = true) :
    (unescape [37, X, Y] EncodeHost = .err (.EscapeError [37, X, Y]) ↔
      (16 * hexValue X + hexValue Y < 128 ∧ [37, X, Y] ≠ [37, 50, 53])) ∧
    (¬ (16 * hexValue X + hexValue Y < 128 ∧ [37, X, Y] ≠ [37, 50, 53]) →
      unescape [37, X, Y] EncodeHost = .ok [16 * hexValue X + hexValue Y]) := by
  have hck := checkFrom_triple EncodeHost X Y hX hY
  have hx := unHex_eq_hexValue X hX
  have hy := hexValue_lt Y hY
  have hlt : unHex X < 8 ↔ 16 * hexValue X + hexValue Y < 128 := by
    rw [hx]; omega
  by_cases hc : 16 * hexValue X + hexValue Y < 128 ∧ [37, X, Y] ≠ [37, 50, 53]
  · have hc' : EncodeHost = EncodeHost ∧ unHex X < 8 ∧ [37, X, Y] ≠ [37, 50, 53] :=
      ⟨rfl, hlt.mpr hc.1, hc.2⟩
    rw [if_pos hc'] at hck
    have := unescape_err _ _ _ hck
    exact ⟨⟨fun _ => hc, fun _ => this⟩, fun h => absurd hc h⟩
  · have hc' : ¬ (EncodeHost = EncodeHost ∧ unHex X < 8 ∧ [37, X, Y] ≠ [37, 50, 53]) :=
      fun h => hc ⟨hlt.mp h.2.1, h.2.2⟩
    have hz : ¬ (EncodeHost = EncodeZone ∧ [37, X, Y] ≠ [37, 50, 53] ∧ hexByte X Y ≠ 32 ∧
        shouldEscape (hexByte X Y) EncodeHost = true) := fun h => absurd h.1 (by decide)
    rw [if_neg hc', if_neg hz] at hck
    have := unescape_ok _ _ _ hck
    rw [refDecode_triple] at this
    refine ⟨⟨fun h => ?_, fun h => absurd h hc⟩, fun _ => this⟩
    rw [this] at h
    cases h

theorem host_escape_restriction_witness :
    (unescape [37, 48, 55] EncodeHost = .err (.EscapeError [37, 48, 55]) ↔
      (16 * hexValue 48 + hexValue 55 < 128 ∧ [37, 48, 55] ≠ [37, 50, 53])) ∧
    (¬ (16 * hexValue 48 + hexValue 55 < 128 ∧ [37, 48, 55] ≠ [37, 50, 53]) →
      unescape [37, 48, 55] EncodeHost = .ok [16 * hexValue 48 + hexValue 55]) :=
  host_escape_restriction 48 55 (by decide) (by decide)

/-- C4: in `Zone` mode an escape `%XY` with decoded byte `v` is accepted (and yields `v`)
exactly when it is `%25`, or `v` is a space, or `shouldEscape v Host` is false; otherwise it
is a malformed escape carrying `%XY`. -/
theorem zone_escape_restriction (X Y : Nat) (hX : isHex X = true) (hY : isHex Y = true) :
    ((∃ t, unescape [37, X, Y] EncodeZone = .ok t) ↔
      ([37, X, Y] = [37, 50, 53] ∨ 16 * hexValue X + hexValue Y = 32 ∨
        shouldEscape (16 * hexValue X + hexValue Y) EncodeHost = false)) ∧
    (([37, X, Y] = [37, 50, 53] ∨ 16 * hexValue X + hexValue Y = 32 ∨
        shouldEscape (16 * hexValue X + hexValue Y) EncodeHost = false) →
      unescape [37, X, Y] EncodeZone = .ok [16 * hexValue X + hexValue Y]) ∧
    (¬ ([37, X, Y] = [37, 50, 53] ∨ 16 * hexValue X + hexValue Y = 32 ∨
        shouldEscape (16 * hexValue X + hexValue Y) EncodeHost = false) →
      unescape [37, X, Y] EncodeZone = .err (.EscapeError [37, X, Y])) := by
  have hck := checkFrom_triple EncodeZone X Y hX hY
  have hv : hexByte X Y = 16 * hexValue X + hexValue Y := by
    rw [hexByte_eq, unHex_eq_hexValue X hX, unHex_eq_hexValue Y hY]
  rw [hv] at hck
  have hh : ¬ (EncodeZone = EncodeHost ∧ unHex X < 8 ∧ [37, X, Y] ≠ [37, 50, 53]) :=
    fun h => absurd h.1 (by decide)
  rw [if_neg hh] at hck
  by_cases hc : [37, X, Y] = [37, 50, 53] ∨ 16 * hexValue X + hexValue Y = 32 ∨
      shouldEscape (16 * hexValue X + hexValue Y) EncodeHost = false
  · have hc' : ¬ (EncodeZone = EncodeZone ∧ [37, X, Y] ≠ [37, 50, 53] ∧
        16 * hexValue X + hexValue Y ≠ 32 ∧
        shouldEscape (16 * hexValue X + hexValue Y) EncodeHost = true) := by
      rintro ⟨_, h1, h2, h3⟩
      rcases hc with h | h | h
      · exact h1 h
      · exact h2 h
      · rw [h3] at h; cases h
    rw [if_neg hc'] at hck
    have := unescape_ok _ _ _ hck
    rw [refDecode_triple] at this
    exact ⟨⟨fun _ => hc, fun _ => ⟨_, this⟩⟩, fun _ => this, fun h => absurd hc h⟩
  · have hc' : EncodeZone = EncodeZone ∧ [37, X, Y] ≠ [37, 50, 53] ∧
        16 * hexValue X + hexValue Y ≠ 32 ∧
        shouldEscape (16 * hexValue X + hexValue Y) EncodeHost = true := by
      refine ⟨rfl, fun h => hc (Or.inl h), fun h => hc (Or.inr (Or.inl h)), ?_⟩
      cases hse : shouldEscape (16 * hexValue X + hexValue Y) EncodeHost
      · exact absurd (Or.inr (Or.inr hse)) hc
      · rfl
    rw [if_pos hc'] at hck
    have := unescape_err _ _ _ hck
    refine ⟨⟨fun ⟨t, ht⟩ => ?_, fun h => absurd h hc⟩, fun h => absurd h hc, fun _ => this⟩
    rw [this] at ht
    cases ht

theorem zone_escape_restriction_witness :
    unescape [37, 50, 48] EncodeZone = .ok [16 * hexValue 50 + hexValue 48] :=
  (zone_escape_restriction 50 48 (by decide) (by decide)).2.1 (by decide)

/-- C5: invalid host byte.  In `Host` or `Zone` mode, on an input without `%`, `unescape`
fails exactly when some byte below `0x80` has `shouldEscape` true; the error is then the
invalid-host-byte error carrying the leftmost such byte, and otherwise the input is
returned unchanged. -/
theorem invalid_host_byte (mode : Encoding) (s : List Nat)
    (hm : mode = EncodeHost ∨ mode = EncodeZone) (hs : 37 ∉ s) :
    ((∃ e, unescape s mode = .err e) ↔ ∃ b ∈ s, b < 128 ∧ shouldEscape b mode = true) ∧
    (∀ (p : List Nat) (b : Nat) (t : List Nat), s = p ++ b :: t →
      (∀ x ∈ p, ¬ (x < 128 ∧ shouldEscape x mode = true)) →
      (b < 128 ∧ shouldEscape b mode = true) →
      unescape s mode = .err (.InvalidHostError [b])) ∧
    ((∀ b ∈ s, ¬ (b < 128 ∧ shouldEscape b mode = true)) → unescape s mode = .ok s) := by
  have hclean : (∀ b ∈ s, ¬ (b < 128 ∧ shouldEscape b mode = true)) →
      unescape s mode = .ok s := by
    intro h
    obtain ⟨⟨r, hr⟩, hd⟩ := checkFrom_host_clean mode hm s hs h 0 false
    rw [unescape_ok s mode r hr, hd]
  have hbad : ∀ (p : List Nat) (b : Nat) (t : List Nat), s = p ++ b :: t →
      (∀ x ∈ p, ¬ (x < 128 ∧ shouldEscape x mode = true)) →
      (b < 128 ∧ shouldEscape b mode = true) →
      unescape s mode = .err (.InvalidHostError [b]) := by
    intro p b t hst hp hb
    subst hst
    have h37p : 37 ∉ p := fun h => hs (List.mem_append_left _ h)
    have hb37 : b ≠ 37 := fun h => hs (h ▸ List.mem_append_right _ (List.mem_cons_self _ _))
    obtain ⟨⟨r, hr⟩, _⟩ := checkFrom_host_clean mode hm p h37p hp 0 false
    apply unescape_err
    rw [checkFrom_append mode p _ 0 false r hr, checkFrom_other mode b t hb37]
    have h43 : b ≠ 43 := by
      rintro rfl
      have := hb.2
      rcases hm with rfl | rfl <;> revert this <;> decide
    rw [if_neg h43, if_pos ⟨hm, hb⟩]
  refine ⟨⟨?_, ?_⟩, hbad, hclean⟩
  · rintro ⟨e, he⟩
    by_contra hno
    have : ∀ b ∈ s, ¬ (b < 128 ∧ shouldEscape b mode = true) :=
      fun b hb hP => hno ⟨b, hb, hP⟩
    rw [hclean this] at he
    cases he
  · intro h
    obtain ⟨p, b, t, hst, hp, hb⟩ :=
      first_split (fun b => b < 128 ∧ shouldEscape b mode = true) s h
    exact ⟨_, hbad p b t hst hp hb⟩

theorem invalid_host_byte_witness :
    unescape [97, 32, 98, 47] EncodeHost = .err (.InvalidHostError [32]) :=
  (invalid_host_byte EncodeHost [97, 32, 98, 47] (Or.inl rfl) (by decide)).2.1
    [97] 32 [98, 47] rfl (by decide) (by decide)

/-- C6: first violation, no partial result.  `unescape` either returns a string or returns
exactly one error; and when `unescape p m` succeeds with `u`, `unescape (p ++ t) m` fails
exactly when `unescape t m` fails, with the identical error, and otherwise returns `u`
followed by the decoding of `t`. -/
theorem first_violation (mode : Encoding) (p t u : List Nat)
    (h : unescape p mode = .ok u) :
    (∀ s : List Nat, (∃ v, unescape s mode = .ok v) ∨ (∃ e, unescape s mode = .err e)) ∧
    (∀ e, unescape (p ++ t) mode = .err e ↔ unescape t mode = .err e) ∧
    (∀ v, unescape t mode = .ok v → unescape (p ++ t) mode = .ok (u ++ v)) := by
  have htot : ∀ s : List Nat,
      (∃ v, unescape s mode = .ok v) ∨ (∃ e, unescape s mode = .err e) := by
    intro s
    rcases unescape_cases s mode with ⟨r, _, h2⟩ | ⟨e, _, h2⟩
    · exact Or.inl ⟨_, h2⟩
    · exact Or.inr ⟨_, h2⟩
  refine ⟨htot, ?_⟩
  rcases unescape_cases p mode with ⟨r, hr, hu⟩ | ⟨e, _, he⟩
  swap
  · rw [he] at h; cases h
  have hu' : u = refDecode mode p := by
    rw [hu] at h
    exact (Outcome.ok.inj h).symm
  have happ := checkFrom_append mode p t 0 false r hr
  rcases unescape_cases t mode with ⟨r', hr', ht⟩ | ⟨e', he', ht⟩
  · obtain ⟨r'', hr''⟩ := checkFrom_ok_indep mode t 0 false r' hr' r.1 r.2
    have hpt : unescape (p ++ t) mode = .ok (u ++ refDecode mode t) := by
      rw [unescape_ok (p ++ t) mode r'' (by rw [happ, hr'']),
        refDecode_append mode p t 0 false r hr, hu']
    constructor
    · intro e
      rw [hpt, ht]
      constructor <;> intro hh <;> cases hh
    · intro v hv
      rw [ht] at hv
      rw [hpt, ← Outcome.ok.inj hv]
  · have hpt : unescape (p ++ t) mode = .err e' := by
      apply unescape_err
      rw [happ]
      exact checkFrom_err_indep mode t 0 false e' he' _ _
    constructor
    · intro e
      rw [hpt, ht]
    · intro v hv
      rw [ht] at hv
      cases hv

theorem first_violation_witness :
    unescape [97] EncodeHost = .ok [97] ∧
    unescape ([97] ++ [32, 98, 37, 122, 122]) EncodeHost = .err (.InvalidHostError [32]) :=
  ⟨by decide,
    ((first_violation EncodeHost [97] [32, 98, 37, 122, 122] [97] (by decide)).2.1 _).mpr
      (by decide)⟩

/-- C7: whenever the validation loop of `unescape` passes, `unescape` returns the reference
decoding of its input (also on the early-return path, where that decoding is the input). -/
theorem unescape_eq_refDecode (s : List Nat) (mode : Encoding) (n : Nat) (hasPlus : Bool)
    (h : unescapeCheck s mode s.length 0 0 false = .ok (n, hasPlus)) :
    unescape s mode = .ok (refDecode mode s) ∧
      (n = 0 ∧ hasPlus = false → refDecode mode s = s) := by
  rw [unescapeCheck_eq s mode s.length 0 0 false (by omega), List.drop_zero] at h
  refine ⟨unescape_ok s mode _ h, fun hz => ?_⟩
  exact (checkFrom_ok_inv mode s 0 false n hasPlus h).2.2.1 hz.1 hz.2

theorem unescape_eq_refDecode_witness :
    unescape [97, 37, 52, 49, 43, 37, 50, 102] EncodeQueryComponent =
        .ok (refDecode EncodeQueryComponent [97, 37, 52, 49, 43, 37, 50, 102]) ∧
      refDecode EncodeQueryComponent [97, 37, 52, 49, 43, 37, 50, 102] = [97, 65, 32, 47] :=
  ⟨(unescape_eq_refDecode [97, 37, 52, 49, 43, 37, 50, 102] EncodeQueryComponent 2 true
    (by decide)).1, by decide⟩

/-- C8: the encode algorithm.  For every mode and input, `escape` is the concatenation, in
input order, of the per-byte images: the byte itself when it needs no escaping, `+` for a
space in `QueryComponent` mode, otherwise `%` and the two uppercase hexadecimal digits; a
space encodes to `+` in `QueryComponent` mode and to `%20` in `Fragment` mode. -/
theorem escape_algorithm (s : List Nat) (mode : Encoding) :
    escape s mode = refEncode mode s ∧
      escape [32] EncodeQueryComponent = [43] ∧ escape [32] EncodeFragment = [37, 50, 48] :=
  ⟨escape_eq_refEncode mode s, by decide, by decide⟩

/-- C9: `escape` returns its input unchanged exactly when no byte needs escaping. -/
theorem escape_eq_self_iff (s : List Nat) (mode : Encoding) :
    escape s mode = s ↔ ∀ b ∈ s, shouldEscape b mode = false := by
  rw [escape_eq_refEncode]
  exact refEncode_eq_self_iff mode s

/-- C10: the output of `escape` is well-formed.  For a byte string `s`, every `%` of
`escape s m` is immediately followed by two uppercase hexadecimal digits; every other output
byte either needs no escaping in mode `m` or is a `+` that stands for a space of `s` in
`QueryComponent` mode; and every output byte is a byte of `s`, `%`, an uppercase
hexadecimal digit or `+`. -/
theorem escape_wellformed (mode : Encoding) (s : List Nat) (hs : Bytes s) :
    (∀ i < (escape s mode).length, (escape s mode).getD i 0 = 37 →
      i + 2 < (escape s mode).length ∧ isUpperHexDigit ((escape s mode).getD (i + 1) 0) ∧
        isUpperHexDigit ((escape s mode).getD (i + 2) 0)) ∧
    (∀ c ∈ escape s mode, c ≠ 37 →
      shouldEscape c mode = false ∨ (mode = EncodeQueryComponent ∧ c = 43 ∧ 32 ∈ s)) ∧
    (∀ c ∈ escape s mode, c ∈ s ∨ c = 37 ∨ isUpperHexDigit c ∨ c = 43) := by
  rw [escape_eq_refEncode]
  refine ⟨percentOK_refEncode mode s hs, ?_, ?_⟩
  · intro c hc hne
    obtain ⟨b, hb, hcb⟩ := (mem_refEncode mode s c).mp hc
    obtain ⟨_, _, _, f4, f5, _, _⟩ := upperHex_facts b (hs b hb)
    unfold byteImage at hcb
    split_ifs at hcb with h1 h2
    · rw [List.mem_singleton] at hcb
      subst hcb
      exact Or.inl h1
    · rw [List.mem_singleton] at hcb
      obtain ⟨rfl, rfl⟩ := h2
      exact Or.inr ⟨rfl, hcb, hb⟩
    · simp only [List.mem_cons, List.mem_singleton, List.not_mem_nil, or_false] at hcb
      rcases hcb with h | h | h
      · exact absurd h hne
      · rw [h]; exact Or.inl (shouldEscape_upperHexDigit _ mode f4)
      · rw [h]; exact Or.inl (shouldEscape_upperHexDigit _ mode f5)
  · intro c hc
    obtain ⟨b, hb, hcb⟩ := (mem_refEncode mode s c).mp hc
    obtain ⟨_, _, _, f4, f5, _, _⟩ := upperHex_facts b (hs b hb)
    unfold byteImage at hcb
    split_ifs at hcb with h1 h2
    · rw [List.mem_singleton] at hcb
      subst hcb
      exact Or.inl hb
    · rw [List.mem_singleton] at hcb
      exact Or.inr (Or.inr (Or.inr hcb))
    · simp only [List.mem_cons, List.mem_singleton, List.not_mem_nil, or_false] at hcb
      rcases hcb with h | h | h
      · exact Or.inr (Or.inl h)
      · rw [h]; exact Or.inr (Or.inr (Or.inl f4))
      · rw [h]; exact Or.inr (Or.inr (Or.inl f5))

theorem escape_wellformed_witness :
    Bytes [97, 32, 37, 200, 43] ∧
    escape [97, 32, 37, 200, 43] EncodeQueryComponent =
      [97, 43, 37, 50, 53, 37, 67, 56, 37, 50, 66] ∧
    (∀ c ∈ escape [97, 32, 37, 200, 43] EncodeQueryComponent,
      c ∈ [97, 32, 37, 200, 43] ∨ c = 37 ∨ isUpperHexDigit c ∨ c = 43) :=
  ⟨by decide, by decide,
    (escape_wellformed EncodeQueryComponent [97, 32, 37, 200, 43] (by decide)).2.2⟩

/-! ## Lemmas for the claims on the decision table and on the round trip -/

theorem shouldEscape_ge_128 (b : Nat) (mode : Encoding) (h : 128 ≤ b) :
    shouldEscape b mode = true := by
  unfold shouldEscape shouldEscapeRest
  rw [if_neg (by omega), if_neg (by omega), if_neg (by omega), if_neg (by omega),
    if_neg (by omega)]

set_option maxRecDepth 100000 in
theorem host_literal_lt : ∀ b < 128,
    (shouldEscape b EncodeHost = false ↔
      ((65 ≤ b ∧ b ≤ 90) ∨ (97 ≤ b ∧ b ≤ 122) ∨ (48 ≤ b ∧ b ≤ 57) ∨
        (b = 45 ∨ b = 95 ∨ b = 46 ∨ b = 126) ∨
        b ∈ [33, 36, 38, 39, 40, 41, 42, 43, 44, 59, 61, 58, 91, 93, 60, 62, 34])) := by
  decide

theorem refEncode_append (mode : Encoding) (p q : List Nat) :
    refEncode mode (p ++ q) = refEncode mode p ++ refEncode mode q := by
  unfold refEncode
  exact List.flatMap_append p q (byteImage mode)

theorem roundtrip_fail (mode : Encoding) (hm : mode = EncodeHost ∨ mode = EncodeZone)
    (s : List Nat) (hs : Bytes s)
    (hbad : ∃ b ∈ s, shouldEscape b mode = true ∧
      ¬ ((mode = EncodeHost → b = 37 ∨ 128 ≤ b) ∧ (mode = EncodeZone → b = 37 ∨ b = 32))) :
    ∃ payload, unescape (escape s mode) mode = .err (.EscapeError payload) := by
  obtain ⟨p, b, t, hst, hp, hesc, hb⟩ := first_split
    (fun b => shouldEscape b mode = true ∧
      ¬ ((mode = EncodeHost → b = 37 ∨ 128 ≤ b) ∧ (mode = EncodeZone → b = 37 ∨ b = 32))) s hbad
  subst hst
  have hpB : Bytes p := fun x hx => hs x (List.mem_append_left _ hx)
  have hb256 : b < 256 := hs b (List.mem_append_right _ (List.mem_cons_self _ _))
  have hpok : ∀ x ∈ p, shouldEscape x mode = true →
      (mode = EncodeHost → x = 37 ∨ 128 ≤ x) ∧ (mode = EncodeZone → x = 37 ∨ x = 32) := by
    intro x hx he
    by_contra hcon
    exact hp x hx ⟨he, hcon⟩
  obtain ⟨⟨r, hr⟩, _⟩ := refEncode_roundtrip mode p hpB hpok 0 false
  obtain ⟨f1, f2, f3, _, _, f6, f7⟩ := upperHex_facts b hb256
  have hq : mode ≠ EncodeQueryComponent := by
    rcases hm with rfl | rfl <;> decide
  have himg : byteImage mode b =
      [37, upperHex.getD (b >>> 4) 0, upperHex.getD (b &&& 15) 0] := by
    unfold byteImage
    rw [if_neg (by rw [hesc]; decide), if_neg (fun h => hq h.2)]
  refine ⟨[37, upperHex.getD (b >>> 4) 0, upperHex.getD (b &&& 15) 0], ?_⟩
  apply unescape_err
  rw [escape_eq_refEncode, refEncode_append, refEncode_cons, himg,
    checkFrom_append mode _ _ 0 false r hr]
  show checkFrom mode (37 :: upperHex.getD (b >>> 4) 0 :: upperHex.getD (b &&& 15) 0 ::
    refEncode mode t) r.1 r.2 = _
  rw [checkFrom_pct]
  have c1 : ¬ (isHex (upperHex.getD (b >>> 4) 0) = false ∨
      isHex (upperHex.getD (b &&& 15) 0) = false) := by
    rintro (h | h)
    · rw [f1] at h; cases h
    · rw [f2] at h; cases h
  have hne : b ≠ 37 →
      [37, upperHex.getD (b >>> 4) 0, upperHex.getD (b &&& 15) 0] ≠ [37, 50, 53] := by
    intro h37 heq
    injection heq with _ h1
    injection h1 with h2 h3
    injection h3 with h4 _
    exact h37 (f7.mp ⟨h2, h4⟩)
  rw [if_neg c1]
  rcases hm with rfl | rfl
  · have hbb : ¬ (b = 37 ∨ 128 ≤ b) := fun h => hb ⟨fun _ => h, fun h' => absurd h' (by decide)⟩
    have c2 : EncodeHost = EncodeHost ∧ unHex (upperHex.getD (b >>> 4) 0) < 8 ∧
        [37, upperHex.getD (b >>> 4) 0, upperHex.getD (b &&& 15) 0] ≠ [37, 50, 53] :=
      ⟨rfl, f6.mpr (by omega), hne (fun h => hbb (Or.inl h))⟩
    rw [if_pos c2]
  · have hbb : ¬ (b = 37 ∨ b = 32) := fun h => hb ⟨fun h' => absurd h' (by decide), fun _ => h⟩
    have c2 : ¬ (EncodeZone = EncodeHost ∧ unHex (upperHex.getD (b >>> 4) 0) < 8 ∧
        [37, upperHex.getD (b >>> 4) 0, upperHex.getD (b &&& 15) 0] ≠ [37, 50, 53]) :=
      fun h => absurd h.1 (by decide)
    have hv : hexByte (upperHex.getD (b >>> 4) 0) (upperHex.getD (b &&& 15) 0) = b := by
      rw [hexByte_eq, f3]
    have c3 : EncodeZone = EncodeZone ∧
        [37, upperHex.getD (b >>> 4) 0, upperHex.getD (b &&& 15) 0] ≠ [37, 50, 53] ∧
        hexByte (upperHex.getD (b >>> 4) 0) (upperHex.getD (b &&& 15) 0) ≠ 32 ∧
        shouldEscape (hexByte (upperHex.getD (b >>> 4) 0) (upperHex.getD (b &&& 15) 0))
          EncodeHost = true := by
      rw [hv]
      refine ⟨rfl, hne (fun h => hbb (Or.inl h)), fun h => hbb (Or.inr h), ?_⟩
      rw [← shouldEscape_host_zone]
      exact hesc
    rw [if_neg c2, if_pos c3]

/-! ## The claims on the decision table, the round trip and the transform pass -/

/-- C11: encode is not idempotent.  Whenever the encoding of `s` contains a `%`,
encoding it again gives a different string, because the `%` itself is escaped; and such
inputs exist in every mode: `%` encodes to `%25`, which encodes to `%2525`. -/
theorem escape_not_idempotent (s : List Nat) (mode : Encoding)
    (h : 37 ∈ escape s mode) :
    escape (escape s mode) mode ≠ escape s mode ∧
      escape [37] mode = [37, 50, 53] ∧
      escape (escape [37] mode) mode = [37, 50, 53, 50, 53] := by
  refine ⟨?_, ?_, ?_⟩
  · intro heq
    rw [escape_eq_refEncode mode (escape s mode)] at heq
    have := (refEncode_eq_self_iff mode (escape s mode)).mp heq 37 h
    rw [shouldEscape_pct] at this
    cases this
  · cases mode <;> decide
  · cases mode <;> decide

theorem escape_not_idempotent_witness :
    37 ∈ escape [97, 32] EncodeFragment ∧
    escape (escape [97, 32] EncodeFragment) EncodeFragment ≠ escape [97, 32] EncodeFragment :=
  ⟨by decide, (escape_not_idempotent [97, 32] EncodeFragment (by decide)).1⟩

/-- C12: unreserved characters are never escaped.  In every mode `shouldEscape` is false
for an ASCII letter, an ASCII digit and each of the marks `-`, `_`, `.`, `~`. -/
theorem unreserved_never_escaped (b : Nat) (mode : Encoding)
    (h : (65 ≤ b ∧ b ≤ 90) ∨ (97 ≤ b ∧ b ≤ 122) ∨ (48 ≤ b ∧ b ≤ 57) ∨
      b = 45 ∨ b = 95 ∨ b = 46 ∨ b = 126) :
    shouldEscape b mode = false := by
  unfold shouldEscape
  by_cases h1 : (97 ≤ b ∧ b ≤ 122) ∨ (65 ≤ b ∧ b ≤ 90) ∨ (48 ≤ b ∧ b ≤ 57)
  · rw [if_pos h1]
  · rw [if_neg h1]
    have h2 : b = 45 ∨ b = 95 ∨ b = 46 ∨ b = 126 := by omega
    split_ifs
    · rfl
    · rfl

theorem unreserved_never_escaped_witness :
    shouldEscape 126 EncodeQueryComponent = false ∧ shouldEscape 90 EncodeHost = false :=
  ⟨unreserved_never_escaped 126 EncodeQueryComponent (by decide),
    unreserved_never_escaped 90 EncodeHost (by decide)⟩

/-- C13: the reserved-set table.  For each byte of the reserved set
`$ & + , / : ; = ? @`: `Path` escapes it exactly when it is `?`; `PathSegment` exactly when
it is one of `/ ; , ?`; `UserPassword` exactly when it is one of `@ / ? :`;
`QueryComponent` always; `Fragment` never.  So `a/b` is unchanged in `Path` mode and
becomes `a%2Fb` in `PathSegment` mode. -/
theorem reserved_table (c : Nat) (h : c ∈ [36, 38, 43, 44, 47, 58, 59, 61, 63, 64]) :
    (shouldEscape c EncodePath = true ↔ c = 63) ∧
    (shouldEscape c EncodePathSegment = true ↔ (c = 47 ∨ c = 59 ∨ c = 44 ∨ c = 63)) ∧
    (shouldEscape c EncodeUserPassword = true ↔ (c = 64 ∨ c = 47 ∨ c = 63 ∨ c = 58)) ∧
    shouldEscape c EncodeQueryComponent = true ∧
    shouldEscape c EncodeFragment = false ∧
    escape [97, 47, 98] EncodePath = [97, 47, 98] ∧
    escape [97, 47, 98] EncodePathSegment = [97, 37, 50, 70, 98] := by
  revert c
  decide

theorem reserved_table_witness :
    (shouldEscape 58 EncodePath = true ↔ 58 = 63) ∧
    (shouldEscape 58 EncodePathSegment = true ↔ (58 = 47 ∨ 58 = 59 ∨ 58 = 44 ∨ 58 = 63)) ∧
    (shouldEscape 58 EncodeUserPassword = true ↔ (58 = 64 ∨ 58 = 47 ∨ 58 = 63 ∨ 58 = 58)) ∧
    shouldEscape 58 EncodeQueryComponent = true ∧
    shouldEscape 58 EncodeFragment = false ∧
    escape [97, 47, 98] EncodePath = [97, 47, 98] ∧
    escape [97, 47, 98] EncodePathSegment = [97, 37, 50, 70, 98] :=
  reserved_table 58 (by decide)

/-- C14: the literal set of `Host` and `Zone`.  In `Host` mode (and equally in `Zone` mode:
the two modes agree on every byte) `shouldEscape` is false exactly for the ASCII letters
and digits, the marks `- _ . ~` and the seventeen characters
`! $ & ' ( ) * + , ; = : [ ] < > "`; every other byte is escaped, among them `/`, `?`, `@`,
`%`, `#`, the space and every byte from `0x80` on. -/
theorem host_zone_literal_set (b : Nat) :
    (shouldEscape b EncodeHost = false ↔
      ((65 ≤ b ∧ b ≤ 90) ∨ (97 ≤ b ∧ b ≤ 122) ∨ (48 ≤ b ∧ b ≤ 57) ∨
        (b = 45 ∨ b = 95 ∨ b = 46 ∨ b = 126) ∨
        b ∈ [33, 36, 38, 39, 40, 41, 42, 43, 44, 59, 61, 58, 91, 93, 60, 62, 34])) ∧
    shouldEscape b EncodeZone = shouldEscape b EncodeHost ∧
    (128 ≤ b → shouldEscape b EncodeHost = true) ∧
    (∀ c ∈ [47, 63, 64, 37, 35, 32], shouldEscape c EncodeHost = true) := by
  refine ⟨?_, shouldEscape_host_zone b, shouldEscape_ge_128 b EncodeHost, by decide⟩
  by_cases hb : b < 128
  · exact host_literal_lt b hb
  · have hge : 128 ≤ b := by omega
    rw [shouldEscape_ge_128 b EncodeHost hge]
    constructor
    · intro h; cases h
    · intro h
      exfalso
      rcases h with h | h | h | h | h
      · omega
      · omega
      · omega
      · omega
      · simp only [List.mem_cons, List.mem_singleton, List.not_mem_nil, or_false] at h
        omega

/-- C15: the `Fragment` leniency.  Each of `! ( ) *` is left alone in `Fragment` mode and
escaped in `PathSegment`, `Path`, `QueryComponent` and `UserPassword` modes, while the
single quote is escaped in `Fragment` mode; so `!()*` is unchanged by `Fragment` encoding
and becomes `%21%28%29%2A` under `QueryComponent` encoding. -/
theorem fragment_leniency :
    (∀ c ∈ [33, 40, 41, 42],
      shouldEscape c EncodeFragment = false ∧
      shouldEscape c EncodePathSegment = true ∧ shouldEscape c EncodePath = true ∧
      shouldEscape c EncodeQueryComponent = true ∧
      shouldEscape c EncodeUserPassword = true) ∧
    shouldEscape 39 EncodeFragment = true ∧
    escape [33, 40, 41, 42] EncodeFragment = [33, 40, 41, 42] ∧
    escape [33, 40, 41, 42] EncodeQueryComponent =
      [37, 50, 49, 37, 50, 56, 37, 50, 57, 37, 50, 65] := by
  decide

/-- C16: the default is to escape.  In every mode `shouldEscape` is true for every byte
that is not printable ASCII (at most `0x20`, equal to `0x7F`, or at least `0x80`) and for
each of the characters `%`, `#`, backslash, `^`, backquote, `{`, `|`, `}`. -/
theorem default_is_escape (b : Nat) (mode : Encoding)
    (h : b ≤ 32 ∨ b = 127 ∨ 128 ≤ b ∨ b = 37 ∨ b = 35 ∨ b = 92 ∨ b = 94 ∨ b = 96 ∨
      b = 123 ∨ b = 124 ∨ b = 125) :
    shouldEscape b mode = true := by
  unfold shouldEscape shouldEscapeRest
  rw [if_neg (by omega), if_neg (by omega), if_neg (by omega), if_neg (by omega),
    if_neg (by omega)]

theorem default_is_escape_witness :
    shouldEscape 37 EncodeFragment = true ∧ shouldEscape 32 EncodeHost = true ∧
      shouldEscape 200 EncodePath = true :=
  ⟨default_is_escape 37 EncodeFragment (by decide),
    default_is_escape 32 EncodeHost (by decide),
    default_is_escape 200 EncodePath (by decide)⟩

/-- C17: host escapes are for non-ASCII bytes only.  In `Host` mode, for hexadecimal digits
`X`, `Y`, `unescape "%XY"` succeeds exactly when the decoded byte is at least `0x80` or the
sequence is `%25`; it then yields the decoded byte, and every other escape is rejected as a
malformed escape carrying `%XY`. -/
theorem host_escape_non_ascii (X Y : Nat) (hX : isHex X = true) (hY : isHex Y = true) :
    ((∃ t, unescape [37, X, Y] EncodeHost = .ok t) ↔
      (128 ≤ 16 * hexValue X + hexValue Y ∨ [37, X, Y] = [37, 50, 53])) ∧
    ((128 ≤ 16 * hexValue X + hexValue Y ∨ [37, X, Y] = [37, 50, 53]) →
      unescape [37, X, Y] EncodeHost = .ok [16 * hexValue X + hexValue Y]) ∧
    (¬ (128 ≤ 16 * hexValue X + hexValue Y ∨ [37, X, Y] = [37, 50, 53]) →
      unescape [37, X, Y] EncodeHost = .err (.EscapeError [37, X, Y])) := by
  have hck := checkFrom_triple EncodeHost X Y hX hY
  have hx := unHex_eq_hexValue X hX
  have hy := hexValue_lt Y hY
  have hz : ¬ (EncodeHost = EncodeZone ∧ [37, X, Y] ≠ [37, 50, 53] ∧ hexByte X Y ≠ 32 ∧
      shouldEscape (hexByte X Y) EncodeHost = true) := fun h => absurd h.1 (by decide)
  by_cases hc : 128 ≤ 16 * hexValue X + hexValue Y ∨ [37, X, Y] = [37, 50, 53]
  · have hc' : ¬ (EncodeHost = EncodeHost ∧ unHex X < 8 ∧ [37, X, Y] ≠ [37, 50, 53]) := by
      rintro ⟨_, h1, h2⟩
      rcases hc with h | h
      · rw [hx] at h1; omega
      · exact h2 h
    rw [if_neg hc', if_neg hz] at hck
    have hok := unescape_ok _ _ _ hck
    rw [refDecode_triple] at hok
    exact ⟨⟨fun _ => hc, fun _ => ⟨_, hok⟩⟩, fun _ => hok, fun h => absurd hc h⟩
  · have hc' : EncodeHost = EncodeHost ∧ unHex X < 8 ∧ [37, X, Y] ≠ [37, 50, 53] := by
      refine ⟨rfl, ?_, fun h => hc (Or.inr h)⟩
      rw [hx]
      have : ¬ 128 ≤ 16 * hexValue X + hexValue Y := fun h => hc (Or.inl h)
      omega
    rw [if_pos hc'] at hck
    have herr := unescape_err _ _ _ hck
    refine ⟨⟨fun ⟨t, ht⟩ => ?_, fun h => absurd h hc⟩, fun h => absurd h hc, fun _ => herr⟩
    rw [herr] at ht
    cases ht

theorem host_escape_non_ascii_witness :
    unescape [37, 67, 51] EncodeHost = .ok [16 * hexValue 67 + hexValue 51] ∧
    unescape [37, 50, 48] EncodeHost = .err (.EscapeError [37, 50, 48]) :=
  ⟨(host_escape_non_ascii 67 51 (by decide) (by decide)).2.1 (by decide),
    (host_escape_non_ascii 50 48 (by decide) (by decide)).2.2 (by decide)⟩

/-- C18: round trip in the five non-host modes.  For `PathSegment`, `Path`,
`QueryComponent`, `UserPassword` and `Fragment` and every byte string `s`,
`unescape (escape s m) m` succeeds and returns exactly `s`. -/
theorem roundtrip_non_host (mode : Encoding) (s : List Nat) (hs : Bytes s)
    (hm : mode = EncodePathSegment ∨ mode = EncodePath ∨ mode = EncodeQueryComponent ∨
      mode = EncodeUserPassword ∨ mode = EncodeFragment) :
    unescape (escape s mode) mode = .ok s := by
  apply roundtrip_core mode s hs
  intro b _ _
  constructor
  · intro h
    subst h
    exact absurd hm (by decide)
  · intro h
    subst h
    exact absurd hm (by decide)

theorem roundtrip_non_host_witness :
    unescape (escape [37, 43, 32, 7, 255, 47, 97] EncodeQueryComponent) EncodeQueryComponent =
      .ok [37, 43, 32, 7, 255, 47, 97] :=
  roundtrip_non_host EncodeQueryComponent [37, 43, 32, 7, 255, 47, 97] (by decide)
    (by decide)

/-- C19: round trip in `Host` and `Zone` modes, exact domain.  For a byte string `s`,
`unescape (escape s Host) Host` returns `s` exactly when every byte of `s` that needs
escaping is `%` or non-ASCII; `unescape (escape s Zone) Zone` returns `s` exactly when
every byte of `s` that needs escaping is `%` or a space; on every other input decoding the
encoder's own output fails with a malformed-escape error. -/
theorem roundtrip_host_zone_domain (s : List Nat) (hs : Bytes s) :
    (unescape (escape s EncodeHost) EncodeHost = .ok s ↔
      ∀ b ∈ s, shouldEscape b EncodeHost = true → b = 37 ∨ 128 ≤ b) ∧
    (unescape (escape s EncodeZone) EncodeZone = .ok s ↔
      ∀ b ∈ s, shouldEscape b EncodeZone = true → b = 37 ∨ b = 32) ∧
    (¬ (∀ b ∈ s, shouldEscape b EncodeHost = true → b = 37 ∨ 128 ≤ b) →
      ∃ payload, unescape (escape s EncodeHost) EncodeHost = .err (.EscapeError payload)) ∧
    (¬ (∀ b ∈ s, shouldEscape b EncodeZone = true → b = 37 ∨ b = 32) →
      ∃ payload, unescape (escape s EncodeZone) EncodeZone = .err (.EscapeError payload)) := by
  have hostOk : (∀ b ∈ s, shouldEscape b EncodeHost = true → b = 37 ∨ 128 ≤ b) →
      unescape (escape s EncodeHost) EncodeHost = .ok s := by
    intro h
    apply roundtrip_core EncodeHost s hs
    intro b hb he
    exact ⟨fun _ => h b hb he, fun h' => absurd h' (by decide)⟩
  have zoneOk : (∀ b ∈ s, shouldEscape b EncodeZone = true → b = 37 ∨ b = 32) →
      unescape (escape s EncodeZone) EncodeZone = .ok s := by
    intro h
    apply roundtrip_core EncodeZone s hs
    intro b hb he
    exact ⟨fun h' => absurd h' (by decide), fun _ => h b hb he⟩
  have hostBad : ¬ (∀ b ∈ s, shouldEscape b EncodeHost = true → b = 37 ∨ 128 ≤ b) →
      ∃ payload, unescape (escape s EncodeHost) EncodeHost = .err (.EscapeError payload) := by
    intro h
    apply roundtrip_fail EncodeHost (Or.inl rfl) s hs
    by_contra hcon
    apply h
    intro b hb he
    by_contra hbb
    exact hcon ⟨b, hb, he, fun hh => hbb (hh.1 rfl)⟩
  have zoneBad : ¬ (∀ b ∈ s, shouldEscape b EncodeZone = true → b = 37 ∨ b = 32) →
      ∃ payload, unescape (escape s EncodeZone) EncodeZone = .err (.EscapeError payload) := by
    intro h
    apply roundtrip_fail EncodeZone (Or.inr rfl) s hs
    by_contra hcon
    apply h
    intro b hb he
    by_contra hbb
    exact hcon ⟨b, hb, he, fun hh => hbb (hh.2 rfl)⟩
  refine ⟨⟨fun h => ?_, hostOk⟩, ⟨fun h => ?_, zoneOk⟩, hostBad, zoneBad⟩
  · by_contra hcon
    obtain ⟨payload, hp⟩ := hostBad hcon
    rw [hp] at h
    cases h
  · by_contra hcon
    obtain ⟨payload, hp⟩ := zoneBad hcon
    rw [hp] at h
    cases h

theorem roundtrip_host_zone_domain_witness :
    (unescape (escape [97, 200, 32] EncodeHost) EncodeHost = .ok [97, 200, 32] ↔
      ∀ b ∈ [97, 200, 32], shouldEscape b EncodeHost = true → b = 37 ∨ 128 ≤ b) ∧
    unescape (escape [97, 200, 32] EncodeHost) EncodeHost = .err (.EscapeError [37, 50, 48]) ∧
    unescape (escape [97, 37, 32] EncodeZone) EncodeZone = .ok [97, 37, 32] :=
  ⟨(roundtrip_host_zone_domain [97, 200, 32] (by decide)).1, by decide,
    (roundtrip_host_zone_domain [97, 37, 32] (by decide)).2.1.mpr (by decide)⟩

/-- C20: the transform pass of `unescape` is safe.  When the validation loop succeeds with
`n` counted escapes, `3 * n <= len(s)`, so the count `len(s) - 2*n` given to `Grow` is not
negative; the second loop runs to its end without an out-of-range read of `s[i+1]` or
`s[i+2]` (the model of the loop panics on such a read); and the result has length exactly
`len(s) - 2*n`. -/
theorem decode_transform_safe (s : List Nat) (mode : Encoding) (n : Nat) (hasPlus : Bool)
    (h : unescapeCheck s mode s.length 0 0 false = .ok (n, hasPlus)) :
    3 * n ≤ s.length ∧ (0 : Int) ≤ (s.length : Int) - 2 * (n : Int) ∧
    ∃ t, unescapeBuild s mode s.length 0 [] = .ok t ∧ unescape s mode = .ok t ∧
      t.length = s.length - 2 * n ∧ t.length ≤ s.length := by
  rw [unescapeCheck_eq s mode s.length 0 0 false (by omega), List.drop_zero] at h
  obtain ⟨_, _, _, h4, h5⟩ := checkFrom_ok_inv mode s 0 false n hasPlus h
  have hb := unescapeBuild_eq s mode s.length 0 [] 0 false (n, hasPlus) (by omega)
    (by rw [List.drop_zero]; exact h)
  rw [List.drop_zero, List.nil_append] at hb
  refine ⟨by omega, by omega, refDecode mode s, hb, unescape_ok s mode _ h, by omega, by omega⟩

theorem decode_transform_safe_witness :
    3 * 2 ≤ [97, 37, 52, 49, 43, 37, 50, 102].length ∧
    unescapeBuild [97, 37, 52, 49, 43, 37, 50, 102] EncodeQueryComponent 8 0 [] =
      .ok [97, 65, 32, 47] ∧
    unescapeBuild [97, 37, 52] EncodeQueryComponent 3 0 [] = .panic :=
  ⟨(decode_transform_safe [97, 37, 52, 49, 43, 37, 50, 102] EncodeQueryComponent 2 true
    (by decide)).1, by decide, by decide⟩

end Urlencode
